import Mathlib

/-!
Verification of the dataset deployment/migration tool (src/app.py).

The application moves "dataset" records between two environments of a
remote API: it authenticates (`try_auth_endpoints`), lists dataset codes
(`fetch_dataset_codes`), fetches payloads (`fetch_dataset`), stages them
as local JSON files (`save_local_dataset` / `load_local_dataset`), and
upserts them on the destination (`upsert_dataset`).

This file gives a shallow embedding of that pipeline:

* `Json` models Python JSON values (numbers restricted to integers, the
  only numeric payloads exercised by this tool).
* `renderC` / `renderD` / `renderP` model `json.dumps` with compact
  separators, with the default separators, and with `indent=2,
  ensure_ascii=False` respectively; `parseJson` models `json.loads`.
* byte-level helpers model `base64` and UTF-8 for the payload codec that
  the specification describes.
* each network-facing function from app.py is modelled as a function of
  an explicit `respond` argument that stands for the behaviour of the
  remote server (`requests.post/get/put` either raising or returning a
  status and body).

Definitions are written to mirror the Python source line by line; the
theorems at the end of the file settle the specification claims.
-/

/-- JSON values as produced by Python's `json` module, with numbers
restricted to integers (the payloads this application manipulates carry
no floats).  Objects keep their key insertion order, as Python dicts do. -/
inductive Json where
  | null
  | bool (b : Bool)
  | num (n : Int)
  | str (s : String)
  | arr (xs : List Json)
  | obj (kvs : List (String × Json))
deriving Repr

mutual

/-- Boolean structural equality on `Json`. -/
def Json.beq : Json → Json → Bool
  | .null, .null => true
  | .bool a, .bool b => a == b
  | .num a, .num b => a == b
  | .str a, .str b => a == b
  | .arr a, .arr b => Json.beqList a b
  | .obj a, .obj b => Json.beqMembers a b
  | _, _ => false

/-- Boolean equality on lists of `Json`. -/
def Json.beqList : List Json → List Json → Bool
  | [], [] => true
  | a :: as, b :: bs => Json.beq a b && Json.beqList as bs
  | _, _ => false

/-- Boolean equality on object member lists. -/
def Json.beqMembers : List (String × Json) → List (String × Json) → Bool
  | [], [] => true
  | a :: as, b :: bs => (a.1 == b.1 && Json.beq a.2 b.2) && Json.beqMembers as bs
  | _, _ => false

end

/-- Structural induction on `Json` that hands the inductive hypothesis to
every element of an array and every value of an object. -/
theorem Json.inductionOn (P : Json → Prop)
    (hnull : P .null) (hbool : ∀ b, P (.bool b)) (hnum : ∀ n, P (.num n))
    (hstr : ∀ s, P (.str s))
    (harr : ∀ xs, (∀ x ∈ xs, P x) → P (.arr xs))
    (hobj : ∀ kvs, (∀ kv ∈ kvs, P kv.2) → P (.obj kvs)) : ∀ v, P v
  | .null => hnull
  | .bool b => hbool b
  | .num n => hnum n
  | .str s => hstr s
  | .arr xs => harr xs (fun x hx =>
      have : sizeOf x < 1 + sizeOf xs := by
        have := List.sizeOf_lt_of_mem hx
        omega
      Json.inductionOn P hnull hbool hnum hstr harr hobj x)
  | .obj kvs => hobj kvs (fun kv hkv =>
      have : sizeOf kv.2 < 1 + sizeOf kvs := by
        have h1 := List.sizeOf_lt_of_mem hkv
        have h2 : sizeOf kv.2 < sizeOf kv := by
          obtain ⟨a, b⟩ := kv
          simp only [Prod.mk.sizeOf_spec]
          omega
        omega
      Json.inductionOn P hnull hbool hnum hstr harr hobj kv.2)
termination_by v => sizeOf v

theorem Json.beqList_eq (xs : List Json)
    (ih : ∀ x ∈ xs, ∀ b, Json.beq x b = true → x = b) :
    ∀ ys, Json.beqList xs ys = true → xs = ys := by
  induction xs with
  | nil => intro ys h; cases ys with
    | nil => rfl
    | cons y ys => simp [Json.beqList] at h
  | cons x xs ihl =>
    intro ys h
    cases ys with
    | nil => simp [Json.beqList] at h
    | cons y ys =>
      simp only [Json.beqList, Bool.and_eq_true] at h
      rw [ih x (List.mem_cons_self x xs) y h.1,
          ihl (fun z hz => ih z (List.mem_cons_of_mem x hz)) ys h.2]

theorem Json.beqMembers_eq (kvs : List (String × Json))
    (ih : ∀ kv ∈ kvs, ∀ b, Json.beq kv.2 b = true → kv.2 = b) :
    ∀ ys, Json.beqMembers kvs ys = true → kvs = ys := by
  induction kvs with
  | nil => intro ys h; cases ys with
    | nil => rfl
    | cons y ys => simp [Json.beqMembers] at h
  | cons x xs ihl =>
    intro ys h
    cases ys with
    | nil => simp [Json.beqMembers] at h
    | cons y ys =>
      simp only [Json.beqMembers, Bool.and_eq_true] at h
      have hk : x.1 = y.1 := by have := h.1.1; simpa using this
      have hv : x.2 = y.2 := ih x (List.mem_cons_self x xs) y.2 h.1.2
      rw [Prod.ext hk hv,
          ihl (fun z hz => ih z (List.mem_cons_of_mem x hz)) ys h.2]

theorem Json.eq_of_beq : ∀ {a b : Json}, Json.beq a b = true → a = b := by
  have main : ∀ a : Json, ∀ b : Json, Json.beq a b = true → a = b := by
    intro a
    induction a using Json.inductionOn with
    | hnull => intro b hb; cases b <;> simp_all [Json.beq]
    | hbool x => intro b hb; cases b <;> simp_all [Json.beq]
    | hnum x => intro b hb; cases b <;> simp_all [Json.beq]
    | hstr x => intro b hb; cases b <;> simp_all [Json.beq]
    | harr xs ih =>
      intro b hb
      cases b with
      | arr ys =>
        exact congrArg Json.arr (Json.beqList_eq xs ih ys (by simpa [Json.beq] using hb))
      | null => simp [Json.beq] at hb
      | bool y => simp [Json.beq] at hb
      | num y => simp [Json.beq] at hb
      | str y => simp [Json.beq] at hb
      | obj y => simp [Json.beq] at hb
    | hobj kvs ih =>
      intro b hb
      cases b with
      | obj ys =>
        exact congrArg Json.obj (Json.beqMembers_eq kvs ih ys (by simpa [Json.beq] using hb))
      | null => simp [Json.beq] at hb
      | bool y => simp [Json.beq] at hb
      | num y => simp [Json.beq] at hb
      | str y => simp [Json.beq] at hb
      | arr y => simp [Json.beq] at hb
  exact fun {a b} => main a b

theorem Json.beq_refl : ∀ a : Json, Json.beq a a = true := by
  intro a
  induction a using Json.inductionOn with
  | hnull => rfl
  | hbool b => simp [Json.beq]
  | hnum n => simp [Json.beq]
  | hstr s => simp [Json.beq]
  | harr xs ih =>
    simp only [Json.beq]
    induction xs with
    | nil => rfl
    | cons x xs ihl =>
      simp only [Json.beqList, Bool.and_eq_true]
      exact ⟨ih x (List.mem_cons_self x xs), ihl (fun z hz => ih z (List.mem_cons_of_mem x hz))⟩
  | hobj kvs ih =>
    simp only [Json.beq]
    induction kvs with
    | nil => rfl
    | cons x xs ihl =>
      simp only [Json.beqMembers, Bool.and_eq_true]
      refine ⟨⟨by simp, ih x (List.mem_cons_self x xs)⟩,
        ihl (fun z hz => ih z (List.mem_cons_of_mem x hz))⟩

instance : DecidableEq Json := fun a b =>
  decidable_of_iff (Json.beq a b = true) ⟨Json.eq_of_beq, fun h => h ▸ Json.beq_refl a⟩

/-! ### Text primitives shared by the `json` module model -/

/-- Whitespace characters accepted between JSON tokens (as in Python's
`json` module: space, tab, newline, carriage return). -/
def isWsChar (c : Char) : Bool :=
  c == ' ' || c == '\t' || c == '\n' || c == '\r'

/-- Drop leading JSON whitespace. -/
def skipWs : List Char → List Char
  | c :: cs => if isWsChar c then skipWs cs else c :: cs
  | [] => []

/-- Lowercase hexadecimal digit for a value below 16. -/
def hexDigitChar (n : Nat) : Char :=
  if n < 10 then Char.ofNat (48 + n) else Char.ofNat (87 + n)

/-- Value of a hexadecimal digit character, upper or lower case. -/
def hexVal (c : Char) : Option Nat :=
  if 48 ≤ c.toNat ∧ c.toNat ≤ 57 then some (c.toNat - 48)
  else if 97 ≤ c.toNat ∧ c.toNat ≤ 102 then some (c.toNat - 87)
  else if 65 ≤ c.toNat ∧ c.toNat ≤ 70 then some (c.toNat - 55)
  else none

/-- Four-digit lowercase hexadecimal rendering of a value below 0x10000. -/
def hex4 (n : Nat) : List Char :=
  [hexDigitChar (n / 4096 % 16), hexDigitChar (n / 256 % 16),
   hexDigitChar (n / 16 % 16), hexDigitChar (n % 16)]

/-- Escaping of one character inside a JSON string literal, as done by
Python's `json.dumps` with `ensure_ascii=False`: quote, backslash and the
control characters are escaped (with the short forms for backspace, tab,
newline, form feed and carriage return), every other character is kept. -/
def escapeChar (c : Char) : List Char :=
  if c = '"' then ['\\', '"']
  else if c = '\\' then ['\\', '\\']
  else if c = '\x08' then ['\\', 'b']
  else if c = '\t' then ['\\', 't']
  else if c = '\n' then ['\\', 'n']
  else if c = '\x0c' then ['\\', 'f']
  else if c = '\r' then ['\\', 'r']
  else if c.toNat < 32 then
    ['\\', 'u', '0', '0', hexDigitChar (c.toNat / 16), hexDigitChar (c.toNat % 16)]
  else [c]

/-- Escaping of one character as done by `json.dumps` with the default
`ensure_ascii=True`: like `escapeChar` for ASCII, and a `\uXXXX` escape
(surrogate pair above 0xFFFF) for every non-ASCII character. -/
def escapeCharAscii (c : Char) : List Char :=
  if c.toNat < 128 then escapeChar c
  else if c.toNat < 65536 then '\\' :: 'u' :: hex4 c.toNat
  else
    '\\' :: 'u' :: hex4 (55296 + (c.toNat - 65536) / 1024) ++
      ('\\' :: 'u' :: hex4 (56320 + (c.toNat - 65536) % 1024))

/-- Escape every character of a string body with the given escaper. -/
def escapeList (f : Char → List Char) : List Char → List Char
  | [] => []
  | c :: cs => f c ++ escapeList f cs

/-- Little-endian base-10 digits with explicit fuel (so that it reduces
inside the kernel; `natDigits_eq` identifies it with `Nat.digits`). -/
def natDigitsAux : Nat → Nat → List Nat
  | _, 0 => []
  | 0, _ + 1 => []
  | f + 1, n + 1 => (n + 1) % 10 :: natDigitsAux f ((n + 1) / 10)

/-- Little-endian base-10 digits of a natural number. -/
def natDigits (n : Nat) : List Nat := natDigitsAux n n

theorem natDigitsAux_eq : ∀ f n, n ≤ f → natDigitsAux f n = Nat.digits 10 n := by
  intro f
  induction f with
  | zero =>
    intro n hn
    interval_cases n
    simp [natDigitsAux, Nat.digits_zero]
  | succ f ih =>
    intro n hn
    cases n with
    | zero => simp [natDigitsAux, Nat.digits_zero]
    | succ m =>
      rw [natDigitsAux, Nat.digits_def' (by omega : 1 < 10) (by omega : 0 < m + 1)]
      rw [ih ((m + 1) / 10) (by omega)]

theorem natDigits_eq (n : Nat) : natDigits n = Nat.digits 10 n :=
  natDigitsAux_eq n n le_rfl

/-- Decimal digits of a natural number, most significant first
(`"0"` for zero), as printed by Python. -/
def natChars (n : Nat) : List Char :=
  if n = 0 then ['0']
  else ((natDigits n).map fun d => Char.ofNat (48 + d)).reverse

/-- Decimal rendering of an integer, with a leading minus sign when
negative, as printed by Python. -/
def intChars (n : Int) : List Char :=
  if n < 0 then '-' :: natChars n.natAbs else natChars n.natAbs

/-! ### Model of `json.dumps` with compact separators

`renderC` is the canonical compact rendering (separators `","` / `":"`,
no added whitespace) used by the payload codec of the specification. -/

mutual

/-- Compact JSON rendering of a value. -/
def renderC : Json → List Char
  | .null => "null".data
  | .bool true => "true".data
  | .bool false => "false".data
  | .num n => intChars n
  | .str s => '"' :: (escapeList escapeChar s.data ++ ['"'])
  | .arr [] => ['[', ']']
  | .arr (x :: xs) => '[' :: (renderC x ++ renderItemsC xs ++ [']'])
  | .obj [] => ['\x7b', '\x7d']
  | .obj (kv :: kvs) =>
      '\x7b' :: ('"' :: ((escapeList escapeChar kv.1.data ++ ['"', ':'] ++ renderC kv.2) ++
        (renderMembersC kvs ++ ['\x7d'])))

/-- Remaining array elements, each preceded by a comma. -/
def renderItemsC : List Json → List Char
  | [] => []
  | x :: xs => ',' :: (renderC x ++ renderItemsC xs)

/-- Remaining object members, each preceded by a comma, the member being
the quoted key, a colon and the value. -/
def renderMembersC : List (String × Json) → List Char
  | [] => []
  | kv :: kvs =>
      ',' :: ('"' :: ((escapeList escapeChar kv.1.data ++ ['"', ':'] ++ renderC kv.2) ++
        renderMembersC kvs))

end

/-- One object member: quoted key, colon, value. -/
def renderMemberC (kv : String × Json) : List Char :=
  '"' :: (escapeList escapeChar kv.1.data ++ ['"', ':'] ++ renderC kv.2)

/-! ### Model of `json.dumps` with the default separators

`renderD` models a bare `json.dumps(item)` call (as used when the code
normalization loop has to serialize an unrecognized listing element):
item separator `", "`, key separator `": "`, `ensure_ascii=True`. -/

mutual

/-- Rendering with Python's default separators. -/
def renderD : Json → List Char
  | .null => "null".data
  | .bool true => "true".data
  | .bool false => "false".data
  | .num n => intChars n
  | .str s => '"' :: (escapeList escapeCharAscii s.data ++ ['"'])
  | .arr [] => ['[', ']']
  | .arr (x :: xs) => '[' :: (renderD x ++ renderItemsD xs ++ [']'])
  | .obj [] => ['\x7b', '\x7d']
  | .obj (kv :: kvs) =>
      '\x7b' :: ('"' :: ((escapeList escapeCharAscii kv.1.data ++ ['"', ':', ' '] ++
        renderD kv.2) ++ (renderMembersD kvs ++ ['\x7d'])))

/-- Remaining array elements under the default separators. -/
def renderItemsD : List Json → List Char
  | [] => []
  | x :: xs => ',' :: ' ' :: (renderD x ++ renderItemsD xs)

/-- Remaining object members under the default separators. -/
def renderMembersD : List (String × Json) → List Char
  | [] => []
  | kv :: kvs =>
      ',' :: ' ' :: ('"' :: ((escapeList escapeCharAscii kv.1.data ++ ['"', ':', ' '] ++
        renderD kv.2) ++ renderMembersD kvs))

end

/-- One object member under the default separators. -/
def renderMemberD (kv : String × Json) : List Char :=
  '"' :: (escapeList escapeCharAscii kv.1.data ++ ['"', ':', ' '] ++ renderD kv.2)

/-! ### Model of `json.dump(payload, f, indent=2, ensure_ascii=False)`

`renderP ind lvl` renders a value at nesting level `lvl` with `ind`
spaces of indentation per level, exactly as Python's pretty printer does:
non-empty containers put every element on its own line, the item
separator is `","` followed by the newline, the key separator is `": "`,
and empty containers stay on one line. -/

/-- Indentation: `n` spaces. -/
def padChars (n : Nat) : List Char := List.replicate n ' '

mutual

/-- Pretty rendering at indentation width `ind`, nesting level `lvl`. -/
def renderP (ind lvl : Nat) : Json → List Char
  | .null => "null".data
  | .bool true => "true".data
  | .bool false => "false".data
  | .num n => intChars n
  | .str s => '"' :: (escapeList escapeChar s.data ++ ['"'])
  | .arr [] => ['[', ']']
  | .arr (x :: xs) =>
      '[' :: '\n' :: (padChars (ind * (lvl + 1)) ++ renderP ind (lvl + 1) x ++
        renderItemsP ind (lvl + 1) xs ++ '\n' :: (padChars (ind * lvl) ++ [']']))
  | .obj [] => ['\x7b', '\x7d']
  | .obj (kv :: kvs) =>
      '\x7b' :: '\n' :: (padChars (ind * (lvl + 1)) ++
        ('"' :: (escapeList escapeChar kv.1.data ++ ['"', ':', ' '] ++ renderP ind (lvl + 1) kv.2)) ++
        renderMembersP ind (lvl + 1) kvs ++ '\n' :: (padChars (ind * lvl) ++ ['\x7d']))

/-- Remaining array elements, each on its own indented line. -/
def renderItemsP (ind lvl : Nat) : List Json → List Char
  | [] => []
  | x :: xs =>
      ',' :: '\n' :: (padChars (ind * lvl) ++ renderP ind lvl x ++ renderItemsP ind lvl xs)

/-- Remaining object members, each on its own indented line. -/
def renderMembersP (ind lvl : Nat) : List (String × Json) → List Char
  | [] => []
  | kv :: kvs =>
      ',' :: '\n' :: (padChars (ind * lvl) ++
        ('"' :: (escapeList escapeChar kv.1.data ++ ['"', ':', ' '] ++ renderP ind lvl kv.2)) ++
        renderMembersP ind lvl kvs)

end

/-- One object member: quoted key, colon-space, value. -/
def renderMemberP (ind lvl : Nat) (kv : String × Json) : List Char :=
  '"' :: (escapeList escapeChar kv.1.data ++ ['"', ':', ' '] ++ renderP ind lvl kv.2)

/-! ### Model of `json.loads`

A recursive-descent parser with explicit fuel.  It accepts exactly the
documents the renderers above produce (plus arbitrary inter-token
whitespace): integers for numbers, the standard string escapes with
non-surrogate `\uXXXX`.  `json.loads` additionally accepts floats and
surrogate pairs, which this tool's payloads do not contain. -/

/-- Parse the remainder of a JSON string literal (the opening quote has
been consumed); returns the unescaped characters and the input after the
closing quote. -/
def parseStringBody : List Char → Option (List Char × List Char)
  | [] => none
  | c :: rest =>
    if c = '"' then some ([], rest)
    else if c = '\\' then
      match rest with
      | [] => none
      | e :: rest1 =>
        if e = '"' then (parseStringBody rest1).map fun p => ('"' :: p.1, p.2)
        else if e = '\\' then (parseStringBody rest1).map fun p => ('\\' :: p.1, p.2)
        else if e = '/' then (parseStringBody rest1).map fun p => ('/' :: p.1, p.2)
        else if e = 'b' then (parseStringBody rest1).map fun p => ('\x08' :: p.1, p.2)
        else if e = 'f' then (parseStringBody rest1).map fun p => ('\x0c' :: p.1, p.2)
        else if e = 'n' then (parseStringBody rest1).map fun p => ('\n' :: p.1, p.2)
        else if e = 'r' then (parseStringBody rest1).map fun p => ('\r' :: p.1, p.2)
        else if e = 't' then (parseStringBody rest1).map fun p => ('\t' :: p.1, p.2)
        else if e = 'u' then
          match rest1 with
          | h1 :: h2 :: h3 :: h4 :: rest2 =>
            match hexVal h1, hexVal h2, hexVal h3, hexVal h4 with
            | some a, some b, some c2, some d =>
              let n := ((a * 16 + b) * 16 + c2) * 16 + d
              if n < 55296 ∨ 57343 < n then
                (parseStringBody rest2).map fun p => (Char.ofNat n :: p.1, p.2)
              else none
            | _, _, _, _ => none
          | _ => none
        else none
    else if c.toNat < 32 then none
    else (parseStringBody rest).map fun p => (c :: p.1, p.2)

/-- Consume a run of decimal digit characters, returning their values. -/
def parseDigitRun : List Char → List Nat × List Char
  | c :: cs =>
    if 48 ≤ c.toNat ∧ c.toNat ≤ 57 then
      let p := parseDigitRun cs
      ((c.toNat - 48) :: p.1, p.2)
    else ([], c :: cs)
  | [] => ([], [])

/-- Numeric value of a most-significant-first digit list. -/
def digitsVal (ds : List Nat) : Nat := ds.foldl (fun a d => a * 10 + d) 0

/-- Parse an unsigned decimal integer (at least one digit). -/
def parseNat (s : List Char) : Option (Nat × List Char) :=
  match parseDigitRun s with
  | ([], _) => none
  | (ds, rest) => some (digitsVal ds, rest)

mutual

/-- Parse one JSON value after skipping leading whitespace. -/
def parseValue : Nat → List Char → Option (Json × List Char)
  | 0, _ => none
  | fuel + 1, s =>
    match skipWs s with
    | [] => none
    | c :: r =>
      if c = 'n' then
        match r with
        | 'u' :: 'l' :: 'l' :: r1 => some (.null, r1)
        | _ => none
      else if c = 't' then
        match r with
        | 'r' :: 'u' :: 'e' :: r1 => some (.bool true, r1)
        | _ => none
      else if c = 'f' then
        match r with
        | 'a' :: 'l' :: 's' :: 'e' :: r1 => some (.bool false, r1)
        | _ => none
      else if c = '"' then
        (parseStringBody r).map fun p => (.str (String.mk p.1), p.2)
      else if c = '[' then
        let r1 := skipWs r
        if r1.head? = some ']' then some (.arr [], r1.tail)
        else (parseItems fuel r1).map fun p => (.arr p.1, p.2)
      else if c = '\x7b' then
        let r1 := skipWs r
        if r1.head? = some '\x7d' then some (.obj [], r1.tail)
        else (parseMembers fuel r1).map fun p => (.obj p.1, p.2)
      else if c = '-' then
        (parseNat r).map fun p => (.num (-(p.1 : Int)), p.2)
      else if 48 ≤ c.toNat ∧ c.toNat ≤ 57 then
        (parseNat (c :: r)).map fun p => (.num (p.1 : Int), p.2)
      else none

/-- Parse the elements of a non-empty array, up to and including the
closing bracket. -/
def parseItems : Nat → List Char → Option (List Json × List Char)
  | 0, _ => none
  | fuel + 1, s =>
    match parseValue fuel s with
    | none => none
    | some (v, r) =>
      let r1 := skipWs r
      if r1.head? = some ',' then
        match parseItems fuel r1.tail with
        | none => none
        | some (vs, r2) => some (v :: vs, r2)
      else if r1.head? = some ']' then some ([v], r1.tail)
      else none

/-- Parse the members of a non-empty object (the next character must be
the opening quote of a key), up to and including the closing brace. -/
def parseMembers : Nat → List Char → Option (List (String × Json) × List Char)
  | 0, _ => none
  | fuel + 1, s =>
    match s with
    | [] => none
    | c :: r =>
      if c = '"' then
        match parseStringBody r with
        | none => none
        | some (k, r1) =>
          let r2 := skipWs r1
          if r2.head? = some ':' then
            match parseValue fuel r2.tail with
            | none => none
            | some (v, r3) =>
              let r4 := skipWs r3
              if r4.head? = some ',' then
                match parseMembers fuel (skipWs r4.tail) with
                | none => none
                | some (ms, r5) => some ((String.mk k, v) :: ms, r5)
              else if r4.head? = some '\x7d' then some ([(String.mk k, v)], r4.tail)
              else none
          else none
      else none

end

/-- Model of `json.loads` on a complete document: parse one value and
require only whitespace to remain. -/
def parseJson (s : String) : Option Json :=
  match parseValue (s.data.length + 1) s.data with
  | some (v, rest) => if (skipWs rest).isEmpty then some v else none
  | none => none

/-! ### Round-trip lemmas: the parser recovers every rendered document -/

theorem char_ne_of_toNat_ne {c d : Char} (h : c.toNat ≠ d.toNat) : c ≠ d :=
  fun he => h (congrArg Char.toNat he)

theorem isWsChar_false (c : Char) (h32 : c.toNat ≠ 32) (h9 : c.toNat ≠ 9)
    (h10 : c.toNat ≠ 10) (h13 : c.toNat ≠ 13) : isWsChar c = false := by
  simp only [isWsChar, Bool.or_eq_false_iff, beq_eq_false_iff_ne]
  exact ⟨⟨⟨char_ne_of_toNat_ne h32, char_ne_of_toNat_ne h9⟩,
    char_ne_of_toNat_ne h10⟩, char_ne_of_toNat_ne h13⟩

theorem skipWs_cons_of_not_ws {c : Char} (h : isWsChar c = false) (t : List Char) :
    skipWs (c :: t) = c :: t := by
  simp [skipWs, h]

/-- Input positions where a number literal may stop: the head is not a
decimal digit. -/
def noDigitHead (s : List Char) : Prop :=
  ∀ c, s.head? = some c → ¬(48 ≤ c.toNat ∧ c.toNat ≤ 57)

theorem noDigitHead_nil : noDigitHead [] := by
  intro c hc
  simp at hc

theorem noDigitHead_cons {c : Char} (h : ¬(48 ≤ c.toNat ∧ c.toNat ≤ 57))
    (t : List Char) : noDigitHead (c :: t) := by
  intro c2 hc2
  simp only [List.head?_cons, Option.some.injEq] at hc2
  exact hc2 ▸ h

theorem hexVal_hexDigitChar : ∀ d < 16, hexVal (hexDigitChar d) = some d := by decide

theorem toNat_digitChar (d : Nat) (h : d < 10) : (Char.ofNat (48 + d)).toNat = 48 + d := by
  interval_cases d <;> decide

/-- Unescaping inverts escaping: the string-body parser consumes exactly
an escaped string body followed by its closing quote. -/
theorem parseStringBody_escape (cs : List Char) :
    ∀ rest, parseStringBody (escapeList escapeChar cs ++ ('"' :: rest)) = some (cs, rest) := by
  induction cs with
  | nil =>
    intro rest
    show parseStringBody ([] ++ ('"' :: rest)) = some ([], rest)
    rw [List.nil_append, parseStringBody.eq_def]
    simp
  | cons c cs ih =>
    intro rest
    have hgoal : escapeList escapeChar (c :: cs) ++ ('"' :: rest) =
        escapeChar c ++ (escapeList escapeChar cs ++ ('"' :: rest)) := by
      rw [escapeList, List.append_assoc]
    rw [hgoal]
    by_cases h1 : c = '"'
    · subst h1
      show parseStringBody ('\\' :: '"' :: (escapeList escapeChar cs ++ ('"' :: rest))) = _
      rw [parseStringBody.eq_def]
      simp [ih]
    by_cases h2 : c = '\\'
    · subst h2
      show parseStringBody ('\\' :: '\\' :: (escapeList escapeChar cs ++ ('"' :: rest))) = _
      rw [parseStringBody.eq_def]
      simp [ih]
    by_cases h3 : c = '\x08'
    · subst h3
      show parseStringBody ('\\' :: 'b' :: (escapeList escapeChar cs ++ ('"' :: rest))) = _
      rw [parseStringBody.eq_def]
      simp [ih]
    by_cases h4 : c = '\t'
    · subst h4
      show parseStringBody ('\\' :: 't' :: (escapeList escapeChar cs ++ ('"' :: rest))) = _
      rw [parseStringBody.eq_def]
      simp [ih]
    by_cases h5 : c = '\n'
    · subst h5
      show parseStringBody ('\\' :: 'n' :: (escapeList escapeChar cs ++ ('"' :: rest))) = _
      rw [parseStringBody.eq_def]
      simp [ih]
    by_cases h6 : c = '\x0c'
    · subst h6
      show parseStringBody ('\\' :: 'f' :: (escapeList escapeChar cs ++ ('"' :: rest))) = _
      rw [parseStringBody.eq_def]
      simp [ih]
    by_cases h7 : c = '\r'
    · subst h7
      show parseStringBody ('\\' :: 'r' :: (escapeList escapeChar cs ++ ('"' :: rest))) = _
      rw [parseStringBody.eq_def]
      simp [ih]
    by_cases h8 : c.toNat < 32
    · have hstep : escapeChar c =
          ['\\', 'u', '0', '0', hexDigitChar (c.toNat / 16), hexDigitChar (c.toNat % 16)] := by
        rw [escapeChar]
        rw [if_neg h1, if_neg h2, if_neg h3, if_neg h4, if_neg h5, if_neg h6, if_neg h7,
          if_pos h8]
      rw [hstep]
      show parseStringBody ('\\' :: 'u' :: '0' :: '0' :: hexDigitChar (c.toNat / 16) ::
        hexDigitChar (c.toNat % 16) :: (escapeList escapeChar cs ++ ('"' :: rest))) = _
      rw [parseStringBody.eq_def]
      have hdiv : hexVal (hexDigitChar (c.toNat / 16)) = some (c.toNat / 16) :=
        hexVal_hexDigitChar _ (by omega)
      have hmod : hexVal (hexDigitChar (c.toNat % 16)) = some (c.toNat % 16) :=
        hexVal_hexDigitChar _ (by omega)
      have h0 : hexVal '0' = some 0 := by decide
      simp only [reduceIte, h0, hdiv, hmod]
      norm_num
      have hn : (c.toNat / 16) * 16 + c.toNat % 16 = c.toNat := by omega
      rw [hn]
      rw [if_pos (by omega : c.toNat < 55296 ∨ 57343 < c.toNat)]
      rw [Char.ofNat_toNat, ih]
      rfl
    · have hstep : escapeChar c = [c] := by
        rw [escapeChar]
        rw [if_neg h1, if_neg h2, if_neg h3, if_neg h4, if_neg h5, if_neg h6, if_neg h7,
          if_neg h8]
      rw [hstep]
      show parseStringBody (c :: (escapeList escapeChar cs ++ ('"' :: rest))) = _
      rw [parseStringBody.eq_def]
      simp only [if_neg h1, if_neg h2, if_neg h8, ih]
      rfl

theorem parseDigitRun_noDigit (s : List Char) (h : noDigitHead s) :
    parseDigitRun s = ([], s) := by
  cases s with
  | nil => rfl
  | cons c t =>
    rw [parseDigitRun.eq_def]
    simp only [if_neg (h c rfl)]

theorem parseDigitRun_cons (c : Char) (cs : List Char) :
    parseDigitRun (c :: cs) =
      if 48 ≤ c.toNat ∧ c.toNat ≤ 57 then
        ((c.toNat - 48) :: (parseDigitRun cs).1, (parseDigitRun cs).2)
      else ([], c :: cs) := by
  rw [parseDigitRun.eq_def]

theorem parseDigitRun_digits (ds : List Nat) (hd : ∀ d ∈ ds, d < 10) :
    ∀ rest, noDigitHead rest →
      parseDigitRun (ds.map (fun d => Char.ofNat (48 + d)) ++ rest) = (ds, rest) := by
  induction ds with
  | nil =>
    intro rest h
    simpa using parseDigitRun_noDigit rest h
  | cons d ds ih =>
    intro rest h
    have hd10 : d < 10 := hd d (List.mem_cons_self d ds)
    have hdn : (Char.ofNat (48 + d)).toNat = 48 + d := toNat_digitChar d hd10
    rw [List.map_cons, List.cons_append, parseDigitRun_cons]
    rw [if_pos (by omega : 48 ≤ (Char.ofNat (48 + d)).toNat ∧ (Char.ofNat (48 + d)).toNat ≤ 57)]
    rw [ih (fun x hx => hd x (List.mem_cons_of_mem d hx)) rest h]
    simp [hdn]

theorem digitsVal_reverse (L : List Nat) : digitsVal L.reverse = Nat.ofDigits 10 L := by
  induction L with
  | nil => rfl
  | cons d L ih =>
    rw [List.reverse_cons]
    simp only [digitsVal, List.foldl_append, List.foldl_cons, List.foldl_nil] at ih ⊢
    rw [ih, Nat.ofDigits_cons]
    omega

theorem natChars_digits (n : Nat) : ∃ ds, natChars n = ds.map (fun d => Char.ofNat (48 + d)) ∧
    (∀ d ∈ ds, d < 10) ∧ digitsVal ds = n ∧ ds ≠ [] := by
  by_cases h : n = 0
  · subst h
    exact ⟨[0], rfl, by simp, rfl, by simp⟩
  · refine ⟨(Nat.digits 10 n).reverse, ?_, ?_, ?_, ?_⟩
    · rw [natChars, if_neg h, natDigits_eq]
      simp [List.map_reverse]
    · intro d hdm
      exact Nat.digits_lt_base (by omega) (List.mem_reverse.mp hdm)
    · rw [digitsVal_reverse]
      exact Nat.ofDigits_digits 10 n
    · simp [Nat.digits_ne_nil_iff_ne_zero, h]

theorem parseNat_natChars (n : Nat) (rest : List Char) (h : noDigitHead rest) :
    parseNat (natChars n ++ rest) = some (n, rest) := by
  obtain ⟨ds, heq, hlt, hval, hne⟩ := natChars_digits n
  rw [heq]
  cases ds with
  | nil => exact absurd rfl hne
  | cons d ds =>
    rw [parseNat, parseDigitRun_digits (d :: ds) hlt rest h]
    simp [hval]

theorem renderC_null : renderC .null = ['n', 'u', 'l', 'l'] := by rw [renderC.eq_def]

theorem renderC_true : renderC (.bool true) = ['t', 'r', 'u', 'e'] := by rw [renderC.eq_def]

theorem renderC_false : renderC (.bool false) = ['f', 'a', 'l', 's', 'e'] := by rw [renderC.eq_def]

theorem renderC_num (n : Int) : renderC (.num n) = intChars n := by rw [renderC.eq_def]

theorem renderC_str (s : String) :
    renderC (.str s) = '"' :: (escapeList escapeChar s.data ++ ['"']) := by rw [renderC.eq_def]

theorem renderC_arrNil : renderC (.arr []) = ['[', ']'] := by rw [renderC.eq_def]

theorem renderC_arrCons (x : Json) (xs : List Json) :
    renderC (.arr (x :: xs)) = '[' :: (renderC x ++ renderItemsC xs ++ [']']) := by
  rw [renderC.eq_def]

theorem renderC_objNil : renderC (.obj []) = ['\x7b', '\x7d'] := by rw [renderC.eq_def]

theorem renderC_objCons (kv : String × Json) (kvs : List (String × Json)) :
    renderC (.obj (kv :: kvs)) = '\x7b' :: (renderMemberC kv ++ renderMembersC kvs ++ ['\x7d']) := by
  rw [renderC.eq_def, renderMemberC]
  simp [List.append_assoc]

theorem renderItemsC_nil : renderItemsC [] = [] := by rw [renderItemsC.eq_def]

theorem renderItemsC_cons (x : Json) (xs : List Json) :
    renderItemsC (x :: xs) = ',' :: (renderC x ++ renderItemsC xs) := by rw [renderItemsC.eq_def]

theorem renderMemberC_def (kv : String × Json) :
    renderMemberC kv = '"' :: (escapeList escapeChar kv.1.data ++ ['"', ':'] ++ renderC kv.2) :=
  rfl

theorem renderMembersC_nil : renderMembersC [] = [] := by rw [renderMembersC.eq_def]

theorem renderMembersC_cons (kv : String × Json) (kvs : List (String × Json)) :
    renderMembersC (kv :: kvs) = ',' :: (renderMemberC kv ++ renderMembersC kvs) := by
  rw [renderMembersC.eq_def, renderMemberC]
  simp [List.append_assoc]

theorem parseValue_succ (fuel : Nat) (s : List Char) :
    parseValue (fuel + 1) s =
      match skipWs s with
      | [] => none
      | c :: r =>
        if c = 'n' then
          match r with
          | 'u' :: 'l' :: 'l' :: r1 => some (.null, r1)
          | _ => none
        else if c = 't' then
          match r with
          | 'r' :: 'u' :: 'e' :: r1 => some (.bool true, r1)
          | _ => none
        else if c = 'f' then
          match r with
          | 'a' :: 'l' :: 's' :: 'e' :: r1 => some (.bool false, r1)
          | _ => none
        else if c = '"' then
          (parseStringBody r).map fun p => (.str (String.mk p.1), p.2)
        else if c = '[' then
          let r1 := skipWs r
          if r1.head? = some ']' then some (.arr [], r1.tail)
          else (parseItems fuel r1).map fun p => (.arr p.1, p.2)
        else if c = '\x7b' then
          let r1 := skipWs r
          if r1.head? = some '\x7d' then some (.obj [], r1.tail)
          else (parseMembers fuel r1).map fun p => (.obj p.1, p.2)
        else if c = '-' then
          (parseNat r).map fun p => (.num (-(p.1 : Int)), p.2)
        else if 48 ≤ c.toNat ∧ c.toNat ≤ 57 then
          (parseNat (c :: r)).map fun p => (.num (p.1 : Int), p.2)
        else none := by
  rw [parseValue.eq_def]

theorem parseItems_succ (fuel : Nat) (s : List Char) :
    parseItems (fuel + 1) s =
      match parseValue fuel s with
      | none => none
      | some (v, r) =>
        let r1 := skipWs r
        if r1.head? = some ',' then
          match parseItems fuel r1.tail with
          | none => none
          | some (vs, r2) => some (v :: vs, r2)
        else if r1.head? = some ']' then some ([v], r1.tail)
        else none := by
  rw [parseItems.eq_def]

theorem parseMembers_succ (fuel : Nat) (s : List Char) :
    parseMembers (fuel + 1) s =
      match s with
      | [] => none
      | c :: r =>
        if c = '"' then
          match parseStringBody r with
          | none => none
          | some (k, r1) =>
            let r2 := skipWs r1
            if r2.head? = some ':' then
              match parseValue fuel r2.tail with
              | none => none
              | some (v, r3) =>
                let r4 := skipWs r3
                if r4.head? = some ',' then
                  match parseMembers fuel (skipWs r4.tail) with
                  | none => none
                  | some (ms, r5) => some ((String.mk k, v) :: ms, r5)
                else if r4.head? = some '\x7d' then some ([(String.mk k, v)], r4.tail)
                else none
            else none
        else none := by
  rw [parseMembers.eq_def]

theorem pv_null (fuel : Nat) (rest : List Char) :
    parseValue (fuel + 1) ('n' :: 'u' :: 'l' :: 'l' :: rest) = some (.null, rest) := by
  rw [parseValue_succ, skipWs_cons_of_not_ws (by decide)]
  simp

theorem pv_true (fuel : Nat) (rest : List Char) :
    parseValue (fuel + 1) ('t' :: 'r' :: 'u' :: 'e' :: rest) = some (.bool true, rest) := by
  rw [parseValue_succ, skipWs_cons_of_not_ws (by decide)]
  simp

theorem pv_false (fuel : Nat) (rest : List Char) :
    parseValue (fuel + 1) ('f' :: 'a' :: 'l' :: 's' :: 'e' :: rest) = some (.bool false, rest) := by
  rw [parseValue_succ, skipWs_cons_of_not_ws (by decide)]
  simp

theorem pv_str (fuel : Nat) (r : List Char) :
    parseValue (fuel + 1) ('"' :: r) =
      (parseStringBody r).map fun p => (.str (String.mk p.1), p.2) := by
  rw [parseValue_succ, skipWs_cons_of_not_ws (by decide)]
  simp

theorem pv_neg (fuel : Nat) (r : List Char) :
    parseValue (fuel + 1) ('-' :: r) =
      (parseNat r).map fun p => (.num (-(p.1 : Int)), p.2) := by
  rw [parseValue_succ, skipWs_cons_of_not_ws (by decide)]
  simp

theorem pv_digit (fuel : Nat) (c : Char) (r : List Char)
    (h48 : 48 ≤ c.toNat) (h57 : c.toNat ≤ 57) :
    parseValue (fuel + 1) (c :: r) =
      (parseNat (c :: r)).map fun p => (.num (p.1 : Int), p.2) := by
  have e1 : ('n' : Char).toNat = 110 := by decide
  have e2 : ('t' : Char).toNat = 116 := by decide
  have e3 : ('f' : Char).toNat = 102 := by decide
  have e4 : ('"' : Char).toNat = 34 := by decide
  have e5 : ('[' : Char).toNat = 91 := by decide
  have e6 : ('\x7b' : Char).toNat = 123 := by decide
  have e7 : ('-' : Char).toNat = 45 := by decide
  rw [parseValue_succ,
    skipWs_cons_of_not_ws (isWsChar_false c (by omega) (by omega) (by omega) (by omega))]
  simp only [if_neg (char_ne_of_toNat_ne (by omega : c.toNat ≠ ('n' : Char).toNat)),
    if_neg (char_ne_of_toNat_ne (by omega : c.toNat ≠ ('t' : Char).toNat)),
    if_neg (char_ne_of_toNat_ne (by omega : c.toNat ≠ ('f' : Char).toNat)),
    if_neg (char_ne_of_toNat_ne (by omega : c.toNat ≠ ('"' : Char).toNat)),
    if_neg (char_ne_of_toNat_ne (by omega : c.toNat ≠ ('[' : Char).toNat)),
    if_neg (char_ne_of_toNat_ne (by omega : c.toNat ≠ ('\x7b' : Char).toNat)),
    if_neg (char_ne_of_toNat_ne (by omega : c.toNat ≠ ('-' : Char).toNat)),
    if_pos (⟨h48, h57⟩ : 48 ≤ c.toNat ∧ c.toNat ≤ 57)]

theorem pv_arrNil (fuel : Nat) (rest : List Char) :
    parseValue (fuel + 1) ('[' :: ']' :: rest) = some (.arr [], rest) := by
  rw [parseValue_succ, skipWs_cons_of_not_ws (by decide)]
  simp only [reduceIte, reduceCtorEq]
  rw [skipWs_cons_of_not_ws (by decide)]
  simp

theorem pv_arr (fuel : Nat) (r : List Char) (h : (skipWs r).head? ≠ some ']') :
    parseValue (fuel + 1) ('[' :: r) =
      (parseItems fuel (skipWs r)).map fun p => (.arr p.1, p.2) := by
  rw [parseValue_succ, skipWs_cons_of_not_ws (by decide)]
  simp only [reduceIte, reduceCtorEq, if_neg h]
  simp

theorem pv_objNil (fuel : Nat) (rest : List Char) :
    parseValue (fuel + 1) ('\x7b' :: '\x7d' :: rest) = some (.obj [], rest) := by
  rw [parseValue_succ, skipWs_cons_of_not_ws (by decide)]
  simp only [reduceIte, reduceCtorEq]
  rw [skipWs_cons_of_not_ws (by decide)]
  simp

theorem pv_obj (fuel : Nat) (r : List Char) (h : (skipWs r).head? ≠ some '\x7d') :
    parseValue (fuel + 1) ('\x7b' :: r) =
      (parseMembers fuel (skipWs r)).map fun p => (.obj p.1, p.2) := by
  rw [parseValue_succ, skipWs_cons_of_not_ws (by decide)]
  simp only [reduceIte, reduceCtorEq, if_neg h]
  simp

/-- Properties of the first character of a rendered value: it is not
whitespace and not one of the container-closing delimiters, so the
parser's lookahead tests behave deterministically. -/
def headOk (c : Char) : Prop :=
  isWsChar c = false ∧ c ≠ ']' ∧ c ≠ '\x7d' ∧ c ≠ ','

instance (c : Char) : Decidable (headOk c) := by
  unfold headOk
  infer_instance

theorem headOk_of_bounds (c : Char)
    (h : c.toNat = 45 ∨ (48 ≤ c.toNat ∧ c.toNat ≤ 57)) : headOk c := by
  have h93 : (']' : Char).toNat = 93 := by decide
  have h125 : ('\x7d' : Char).toNat = 125 := by decide
  have h44 : (',' : Char).toNat = 44 := by decide
  exact ⟨isWsChar_false c (by omega) (by omega) (by omega) (by omega),
    char_ne_of_toNat_ne (by omega), char_ne_of_toNat_ne (by omega),
    char_ne_of_toNat_ne (by omega)⟩

theorem intChars_head (n : Int) : ∃ c t, intChars n = c :: t ∧
    (c.toNat = 45 ∨ (48 ≤ c.toNat ∧ c.toNat ≤ 57)) := by
  by_cases h : n < 0
  · exact ⟨'-', natChars n.natAbs, by rw [intChars, if_pos h], Or.inl (by decide)⟩
  · obtain ⟨ds, heq, hlt, hval, hne⟩ := natChars_digits n.natAbs
    cases ds with
    | nil => exact absurd rfl hne
    | cons d t =>
      have hd10 : d < 10 := hlt d (List.mem_cons_self d t)
      have hdn := toNat_digitChar d hd10
      refine ⟨Char.ofNat (48 + d), t.map fun d => Char.ofNat (48 + d), ?_, Or.inr (by omega)⟩
      rw [intChars, if_neg h, heq, List.map_cons]

theorem renderC_head (v : Json) : ∃ c t, renderC v = c :: t ∧ headOk c := by
  cases v with
  | null => exact ⟨'n', _, renderC_null, by decide⟩
  | bool b =>
    cases b with
    | true => exact ⟨'t', _, renderC_true, by decide⟩
    | false => exact ⟨'f', _, renderC_false, by decide⟩
  | num n =>
    obtain ⟨c, t, heq, hc⟩ := intChars_head n
    exact ⟨c, t, by rw [renderC_num, heq], headOk_of_bounds c hc⟩
  | str s => exact ⟨'"', _, renderC_str s, by decide⟩
  | arr xs =>
    cases xs with
    | nil => exact ⟨'[', _, renderC_arrNil, by decide⟩
    | cons x xs => exact ⟨'[', _, renderC_arrCons x xs, by decide⟩
  | obj kvs =>
    cases kvs with
    | nil => exact ⟨'\x7b', _, renderC_objNil, by decide⟩
    | cons kv kvs => exact ⟨'\x7b', _, renderC_objCons kv kvs, by decide⟩

theorem skipWs_renderC_append (x : Json) (rest : List Char) :
    skipWs (renderC x ++ rest) = renderC x ++ rest := by
  obtain ⟨c, t, hct, hok⟩ := renderC_head x
  rw [hct, List.cons_append, skipWs_cons_of_not_ws hok.1]

theorem head_renderC_append_ne (x : Json) (rest : List Char) (d : Char) (hd : d = ']' ∨ d = '\x7d' ∨ d = ',') :
    (renderC x ++ rest).head? ≠ some d := by
  obtain ⟨c, t, hct, hok⟩ := renderC_head x
  rw [hct, List.cons_append, List.head?_cons]
  intro hcon
  have hcd : c = d := by simpa using hcon
  rcases hd with h | h | h
  · exact hok.2.1 (by rw [hcd, h])
  · exact hok.2.2.1 (by rw [hcd, h])
  · exact hok.2.2.2 (by rw [hcd, h])

theorem parseItemsC_aux (xs : List Json)
    (ihs : ∀ y ∈ xs, ∀ fuel rest, (renderC y).length < fuel → noDigitHead rest →
      parseValue fuel (renderC y ++ rest) = some (y, rest)) :
    ∀ x : Json,
      (∀ fuel rest, (renderC x).length < fuel → noDigitHead rest →
        parseValue fuel (renderC x ++ rest) = some (x, rest)) →
      ∀ fuel rest, (renderC x).length + (renderItemsC xs).length + 1 < fuel →
        parseItems fuel (renderC x ++ (renderItemsC xs ++ (']' :: rest))) =
          some (x :: xs, rest) := by
  induction xs with
  | nil =>
    intro x ihx fuel rest hlen
    cases fuel with
    | zero => omega
    | succ f =>
      rw [renderItemsC_nil, List.nil_append, parseItems_succ]
      rw [ihx f (']' :: rest) (by omega) (noDigitHead_cons (by decide) rest)]
      simp [skipWs_cons_of_not_ws (by decide : isWsChar ']' = false)]
  | cons y ys ihl =>
    intro x ihx fuel rest hlen
    cases fuel with
    | zero => omega
    | succ f =>
      have hleny : (renderItemsC (y :: ys)).length =
          1 + (renderC y).length + (renderItemsC ys).length := by
        rw [renderItemsC_cons]
        simp [List.length_append]
        omega
      rw [renderItemsC_cons]
      simp only [List.cons_append, List.append_assoc]
      rw [parseItems_succ]
      rw [ihx f (',' :: (renderC y ++ (renderItemsC ys ++ (']' :: rest))))
        (by omega) (noDigitHead_cons (by decide) _)]
      simp only [skipWs_cons_of_not_ws (by decide : isWsChar ',' = false),
        List.head?_cons, List.tail_cons, Option.some.injEq, reduceIte]
      rw [ihl (fun z hz => ihs z (List.mem_cons_of_mem y hz)) y
        (ihs y (List.mem_cons_self y ys)) f rest (by omega)]

theorem noDigitHead_membersTail (kvs : List (String × Json)) (rest : List Char) :
    noDigitHead (renderMembersC kvs ++ ('\x7d' :: rest)) := by
  cases kvs with
  | nil =>
    rw [renderMembersC_nil, List.nil_append]
    exact noDigitHead_cons (by decide) rest
  | cons kv kvs =>
    rw [renderMembersC_cons, List.cons_append]
    exact noDigitHead_cons (by decide) _

theorem parseMembersC_aux (kvs : List (String × Json))
    (ihs : ∀ kv ∈ kvs, ∀ fuel rest, (renderC kv.2).length < fuel → noDigitHead rest →
      parseValue fuel (renderC kv.2 ++ rest) = some (kv.2, rest)) :
    ∀ kv : String × Json,
      (∀ fuel rest, (renderC kv.2).length < fuel → noDigitHead rest →
        parseValue fuel (renderC kv.2 ++ rest) = some (kv.2, rest)) →
      ∀ fuel rest, (renderMemberC kv).length + (renderMembersC kvs).length + 1 < fuel →
        parseMembers fuel (renderMemberC kv ++ (renderMembersC kvs ++ ('\x7d' :: rest))) =
          some (kv :: kvs, rest) := by
  induction kvs with
  | nil =>
    intro kv ihv fuel rest hlen
    obtain ⟨k, v⟩ := kv
    replace ihv : ∀ fuel rest, (renderC v).length < fuel → noDigitHead rest →
        parseValue fuel (renderC v ++ rest) = some (v, rest) := ihv
    cases fuel with
    | zero => omega
    | succ f =>
      have hmlen : (renderMemberC (k, v)).length =
          (escapeList escapeChar k.data).length + (renderC v).length + 3 := by
        rw [renderMemberC_def]
        simp [List.length_append]
        omega
      rw [renderMembersC_nil, List.nil_append, renderMemberC_def]
      simp only [List.cons_append, List.append_assoc, List.nil_append]
      rw [parseMembers_succ]
      simp only [reduceIte]
      rw [parseStringBody_escape]
      simp only [skipWs_cons_of_not_ws (by decide : isWsChar ':' = false),
        List.head?_cons, List.tail_cons, Option.some.injEq, reduceIte]
      rw [ihv f ('\x7d' :: rest) (by omega) (noDigitHead_cons (by decide) rest)]
      simp [skipWs_cons_of_not_ws (by decide : isWsChar '\x7d' = false)]
  | cons kv2 kvs2 ihl =>
    intro kv ihv fuel rest hlen
    obtain ⟨k, v⟩ := kv
    replace ihv : ∀ fuel rest, (renderC v).length < fuel → noDigitHead rest →
        parseValue fuel (renderC v ++ rest) = some (v, rest) := ihv
    cases fuel with
    | zero => omega
    | succ f =>
      have hmlen : (renderMemberC (k, v)).length =
          (escapeList escapeChar k.data).length + (renderC v).length + 3 := by
        rw [renderMemberC_def]
        simp [List.length_append]
        omega
      have hleny : (renderMembersC (kv2 :: kvs2)).length =
          1 + (renderMemberC kv2).length + (renderMembersC kvs2).length := by
        rw [renderMembersC_cons]
        simp [List.length_append]
        omega
      rw [renderMembersC_cons, renderMemberC_def]
      simp only [List.cons_append, List.append_assoc, List.nil_append]
      rw [parseMembers_succ]
      simp only [reduceIte]
      rw [parseStringBody_escape]
      simp only [skipWs_cons_of_not_ws (by decide : isWsChar ':' = false),
        List.head?_cons, List.tail_cons, Option.some.injEq, reduceIte]
      rw [ihv f (',' :: (renderMemberC kv2 ++ (renderMembersC kvs2 ++ ('\x7d' :: rest))))
        (by omega) (noDigitHead_cons (by decide) _)]
      simp only [skipWs_cons_of_not_ws (by decide : isWsChar ',' = false),
        List.head?_cons, List.tail_cons, Option.some.injEq, reduceIte]
      have hskip : skipWs (renderMemberC kv2 ++ (renderMembersC kvs2 ++ ('\x7d' :: rest))) =
          renderMemberC kv2 ++ (renderMembersC kvs2 ++ ('\x7d' :: rest)) := by
        rw [renderMemberC_def, List.cons_append,
          skipWs_cons_of_not_ws (by decide : isWsChar '"' = false)]
      rw [hskip]
      rw [ihl (fun z hz => ihs z (List.mem_cons_of_mem kv2 hz)) kv2
        (ihs kv2 (List.mem_cons_self kv2 kvs2)) f rest (by omega)]

/-- The parser inverts the compact renderer: parsing a rendered value
consumes exactly its text (for any fuel above the text length, and any
continuation that cannot extend a number literal). -/
theorem parseValue_renderC (v : Json) : ∀ fuel rest, (renderC v).length < fuel →
    noDigitHead rest → parseValue fuel (renderC v ++ rest) = some (v, rest) := by
  induction v using Json.inductionOn with
  | hnull =>
    intro fuel rest hlen hnd
    rw [renderC_null] at hlen ⊢
    cases fuel with
    | zero => omega
    | succ f =>
      simpa using pv_null f rest
  | hbool b =>
    intro fuel rest hlen hnd
    cases fuel with
    | zero =>
      exact absurd hlen (by omega)
    | succ f =>
      cases b with
      | true =>
        rw [renderC_true]
        simpa using pv_true f rest
      | false =>
        rw [renderC_false]
        simpa using pv_false f rest
  | hnum n =>
    intro fuel rest hlen hnd
    cases fuel with
    | zero => exact absurd hlen (by omega)
    | succ f =>
      rw [renderC_num]
      by_cases hneg : n < 0
      · rw [intChars, if_pos hneg, List.cons_append, pv_neg,
          parseNat_natChars n.natAbs rest hnd]
        have hv : -((n.natAbs : Nat) : Int) = n := by omega
        rw [Option.map_some', hv]
      · rw [intChars, if_neg hneg]
        obtain ⟨ds, heq, hlt, hval, hne⟩ := natChars_digits n.natAbs
        cases ds with
        | nil => exact absurd rfl hne
        | cons d t =>
          have hd10 : d < 10 := hlt d (List.mem_cons_self d t)
          have hdn := toNat_digitChar d hd10
          have hre : natChars n.natAbs ++ rest =
              Char.ofNat (48 + d) :: (List.map (fun d => Char.ofNat (48 + d)) t ++ rest) := by
            rw [heq, List.map_cons, List.cons_append]
          rw [heq, List.map_cons, List.cons_append,
            pv_digit f (Char.ofNat (48 + d)) _ (by omega) (by omega),
            ← hre, parseNat_natChars n.natAbs rest hnd]
          have hv : ((n.natAbs : Nat) : Int) = n := by omega
          rw [Option.map_some', hv]
  | hstr s =>
    intro fuel rest hlen hnd
    cases fuel with
    | zero => exact absurd hlen (by omega)
    | succ f =>
      rw [renderC_str]
      simp only [List.cons_append, List.append_assoc, List.singleton_append]
      rw [pv_str, parseStringBody_escape]
      rfl
  | harr xs ih =>
    intro fuel rest hlen hnd
    cases fuel with
    | zero => exact absurd hlen (by omega)
    | succ f =>
      cases xs with
      | nil =>
        rw [renderC_arrNil]
        simpa using pv_arrNil f rest
      | cons x xs =>
        have hlen2 : (renderC x).length + (renderItemsC xs).length + 1 < f := by
          rw [renderC_arrCons] at hlen
          simp [List.length_append] at hlen
          omega
        rw [renderC_arrCons]
        simp only [List.cons_append, List.append_assoc, List.singleton_append,
          List.nil_append]
        rw [pv_arr f _ (by
          rw [skipWs_renderC_append]
          exact head_renderC_append_ne x _ ']' (Or.inl rfl))]
        rw [skipWs_renderC_append]
        rw [parseItemsC_aux xs (fun y hy => ih y (List.mem_cons_of_mem x hy)) x
          (ih x (List.mem_cons_self x xs)) f rest (by omega)]
        rfl
  | hobj kvs ih =>
    intro fuel rest hlen hnd
    cases fuel with
    | zero => exact absurd hlen (by omega)
    | succ f =>
      cases kvs with
      | nil =>
        rw [renderC_objNil]
        simpa using pv_objNil f rest
      | cons kv kvs =>
        have hlen2 : (renderMemberC kv).length + (renderMembersC kvs).length + 1 < f := by
          rw [renderC_objCons] at hlen
          simp [List.length_append] at hlen
          omega
        have hskip : skipWs (renderMemberC kv ++ (renderMembersC kvs ++ ('\x7d' :: rest))) =
            renderMemberC kv ++ (renderMembersC kvs ++ ('\x7d' :: rest)) := by
          rw [renderMemberC_def, List.cons_append,
            skipWs_cons_of_not_ws (by decide : isWsChar '"' = false)]
        have hhead : (renderMemberC kv ++ (renderMembersC kvs ++ ('\x7d' :: rest))).head? ≠
            some '\x7d' := by
          rw [renderMemberC_def, List.cons_append, List.head?_cons]
          intro hcon
          simp only [Option.some.injEq] at hcon
          exact absurd hcon (by decide : ¬('"' : Char) = '\x7d')
        rw [renderC_objCons]
        simp only [List.cons_append, List.append_assoc, List.singleton_append,
          List.nil_append]
        rw [pv_obj f _ (by rw [hskip]; exact hhead)]
        rw [hskip]
        rw [parseMembersC_aux kvs (fun z hz => ih z (List.mem_cons_of_mem kv hz)) kv
          (ih kv (List.mem_cons_self kv kvs)) f rest (by omega)]
        rfl

/-- Model of `json.loads (json.dumps v)` with compact separators: a full
round trip on every JSON value. -/
theorem parseJson_renderC (v : Json) : parseJson (String.mk (renderC v)) = some v := by
  have hdata : (String.mk (renderC v)).data = renderC v := rfl
  rw [parseJson, hdata]
  have h := parseValue_renderC v ((renderC v).length + 1) [] (by omega) noDigitHead_nil
  rw [List.append_nil] at h
  rw [h]
  simp [skipWs]

/-! ### Round trip for the `indent=2` pretty renderer -/

theorem renderP_null (ind lvl : Nat) : renderP ind lvl .null = ['n', 'u', 'l', 'l'] := by
  rw [renderP.eq_def]

theorem renderP_true (ind lvl : Nat) : renderP ind lvl (.bool true) = ['t', 'r', 'u', 'e'] := by
  rw [renderP.eq_def]

theorem renderP_false (ind lvl : Nat) :
    renderP ind lvl (.bool false) = ['f', 'a', 'l', 's', 'e'] := by
  rw [renderP.eq_def]

theorem renderP_num (ind lvl : Nat) (n : Int) : renderP ind lvl (.num n) = intChars n := by
  rw [renderP.eq_def]

theorem renderP_str (ind lvl : Nat) (s : String) :
    renderP ind lvl (.str s) = '"' :: (escapeList escapeChar s.data ++ ['"']) := by
  rw [renderP.eq_def]

theorem renderP_arrNil (ind lvl : Nat) : renderP ind lvl (.arr []) = ['[', ']'] := by
  rw [renderP.eq_def]

theorem renderP_arrCons (ind lvl : Nat) (x : Json) (xs : List Json) :
    renderP ind lvl (.arr (x :: xs)) =
      '[' :: '\n' :: (padChars (ind * (lvl + 1)) ++ renderP ind (lvl + 1) x ++
        renderItemsP ind (lvl + 1) xs ++ '\n' :: (padChars (ind * lvl) ++ [']'])) := by
  rw [renderP.eq_def]

theorem renderP_objNil (ind lvl : Nat) : renderP ind lvl (.obj []) = ['\x7b', '\x7d'] := by
  rw [renderP.eq_def]

theorem renderP_objCons (ind lvl : Nat) (kv : String × Json) (kvs : List (String × Json)) :
    renderP ind lvl (.obj (kv :: kvs)) =
      '\x7b' :: '\n' :: (padChars (ind * (lvl + 1)) ++ renderMemberP ind (lvl + 1) kv ++
        renderMembersP ind (lvl + 1) kvs ++ '\n' :: (padChars (ind * lvl) ++ ['\x7d'])) := by
  rw [renderP.eq_def, renderMemberP]

theorem renderItemsP_nil (ind lvl : Nat) : renderItemsP ind lvl [] = [] := by
  rw [renderItemsP.eq_def]

theorem renderItemsP_cons (ind lvl : Nat) (x : Json) (xs : List Json) :
    renderItemsP ind lvl (x :: xs) =
      ',' :: '\n' :: (padChars (ind * lvl) ++ renderP ind lvl x ++ renderItemsP ind lvl xs) := by
  rw [renderItemsP.eq_def]

theorem renderMemberP_def (ind lvl : Nat) (kv : String × Json) :
    renderMemberP ind lvl kv =
      '"' :: (escapeList escapeChar kv.1.data ++ ['"', ':', ' '] ++ renderP ind lvl kv.2) :=
  rfl

theorem renderMembersP_nil (ind lvl : Nat) : renderMembersP ind lvl [] = [] := by
  rw [renderMembersP.eq_def]

theorem renderMembersP_cons (ind lvl : Nat) (kv : String × Json) (kvs : List (String × Json)) :
    renderMembersP ind lvl (kv :: kvs) =
      ',' :: '\n' :: (padChars (ind * lvl) ++ renderMemberP ind lvl kv ++
        renderMembersP ind lvl kvs) := by
  rw [renderMembersP.eq_def, renderMemberP]

theorem skipWs_ws_cons {c : Char} (h : isWsChar c = true) (t : List Char) :
    skipWs (c :: t) = skipWs t := by
  simp [skipWs, h]

theorem skipWs_pad (n : Nat) (t : List Char) : skipWs (padChars n ++ t) = skipWs t := by
  induction n with
  | zero => rfl
  | succ m ih =>
    have : padChars (m + 1) = ' ' :: padChars m := by
      simp [padChars, List.replicate]
    rw [this, List.cons_append, skipWs_ws_cons (by decide)]
    exact ih

theorem parseValue_wsLead (fuel : Nat) (n : Nat) (s : List Char) :
    parseValue fuel ('\n' :: (padChars n ++ s)) = parseValue fuel s := by
  cases fuel with
  | zero => rfl
  | succ f =>
    rw [parseValue_succ, parseValue_succ, skipWs_ws_cons (by decide), skipWs_pad]

theorem parseValue_spaceLead (fuel : Nat) (s : List Char) :
    parseValue fuel (' ' :: s) = parseValue fuel s := by
  cases fuel with
  | zero => rfl
  | succ f =>
    rw [parseValue_succ, parseValue_succ, skipWs_ws_cons (by decide)]

theorem parseItems_wsLead (fuel : Nat) (n : Nat) (s : List Char) :
    parseItems fuel ('\n' :: (padChars n ++ s)) = parseItems fuel s := by
  cases fuel with
  | zero => rfl
  | succ f =>
    rw [parseItems_succ, parseItems_succ, parseValue_wsLead]

theorem renderP_head (ind lvl : Nat) (v : Json) :
    ∃ c t, renderP ind lvl v = c :: t ∧ headOk c := by
  cases v with
  | null => exact ⟨'n', _, renderP_null ind lvl, by decide⟩
  | bool b =>
    cases b with
    | true => exact ⟨'t', _, renderP_true ind lvl, by decide⟩
    | false => exact ⟨'f', _, renderP_false ind lvl, by decide⟩
  | num n =>
    obtain ⟨c, t, heq, hc⟩ := intChars_head n
    exact ⟨c, t, by rw [renderP_num, heq], headOk_of_bounds c hc⟩
  | str s => exact ⟨'"', _, renderP_str ind lvl s, by decide⟩
  | arr xs =>
    cases xs with
    | nil => exact ⟨'[', _, renderP_arrNil ind lvl, by decide⟩
    | cons x xs => exact ⟨'[', _, renderP_arrCons ind lvl x xs, by decide⟩
  | obj kvs =>
    cases kvs with
    | nil => exact ⟨'\x7b', _, renderP_objNil ind lvl, by decide⟩
    | cons kv kvs => exact ⟨'\x7b', _, renderP_objCons ind lvl kv kvs, by decide⟩

theorem skipWs_renderP_append (ind lvl : Nat) (x : Json) (rest : List Char) :
    skipWs (renderP ind lvl x ++ rest) = renderP ind lvl x ++ rest := by
  obtain ⟨c, t, hct, hok⟩ := renderP_head ind lvl x
  rw [hct, List.cons_append, skipWs_cons_of_not_ws hok.1]

theorem head_renderP_append_ne (ind lvl : Nat) (x : Json) (rest : List Char) (d : Char)
    (hd : d = ']' ∨ d = '\x7d' ∨ d = ',') :
    (renderP ind lvl x ++ rest).head? ≠ some d := by
  obtain ⟨c, t, hct, hok⟩ := renderP_head ind lvl x
  rw [hct, List.cons_append, List.head?_cons]
  intro hcon
  have hcd : c = d := by simpa using hcon
  rcases hd with h | h | h
  · exact hok.2.1 (by rw [hcd, h])
  · exact hok.2.2.1 (by rw [hcd, h])
  · exact hok.2.2.2 (by rw [hcd, h])

theorem parseItemsP_aux (ind lvl padN : Nat) (xs : List Json)
    (ihs : ∀ y ∈ xs, ∀ ind lvl fuel rest, (renderP ind lvl y).length < fuel →
      noDigitHead rest → parseValue fuel (renderP ind lvl y ++ rest) = some (y, rest)) :
    ∀ x : Json,
      (∀ ind lvl fuel rest, (renderP ind lvl x).length < fuel → noDigitHead rest →
        parseValue fuel (renderP ind lvl x ++ rest) = some (x, rest)) →
      ∀ fuel rest, (renderP ind lvl x).length + (renderItemsP ind lvl xs).length + 1 < fuel →
        parseItems fuel (renderP ind lvl x ++ (renderItemsP ind lvl xs ++
          ('\n' :: (padChars padN ++ (']' :: rest))))) = some (x :: xs, rest) := by
  induction xs with
  | nil =>
    intro x ihx fuel rest hlen
    cases fuel with
    | zero => omega
    | succ f =>
      have hskip : skipWs ('\n' :: (padChars padN ++ (']' :: rest))) = ']' :: rest := by
        rw [skipWs_ws_cons (by decide), skipWs_pad,
          skipWs_cons_of_not_ws (by decide)]
      rw [renderItemsP_nil, List.nil_append, parseItems_succ]
      rw [ihx ind lvl f ('\n' :: (padChars padN ++ (']' :: rest))) (by omega)
        (noDigitHead_cons (by decide) _)]
      simp [hskip]
  | cons y ys ihl =>
    intro x ihx fuel rest hlen
    cases fuel with
    | zero => omega
    | succ f =>
      have hleny : (renderItemsP ind lvl (y :: ys)).length =
          2 + ind * lvl + (renderP ind lvl y).length + (renderItemsP ind lvl ys).length := by
        rw [renderItemsP_cons]
        simp [List.length_append, padChars]
        omega
      rw [renderItemsP_cons]
      simp only [List.cons_append, List.append_assoc, List.nil_append]
      rw [parseItems_succ]
      rw [ihx ind lvl f (',' :: '\n' :: (padChars (ind * lvl) ++ (renderP ind lvl y ++
          (renderItemsP ind lvl ys ++ ('\n' :: (padChars padN ++ (']' :: rest)))))))
        (by omega) (noDigitHead_cons (by decide) _)]
      simp only [skipWs_cons_of_not_ws (by decide : isWsChar ',' = false),
        List.head?_cons, List.tail_cons, Option.some.injEq, reduceIte]
      rw [parseItems_wsLead]
      rw [ihl (fun z hz => ihs z (List.mem_cons_of_mem y hz)) y
        (ihs y (List.mem_cons_self y ys)) f rest (by omega)]

theorem parseMembersP_aux (ind lvl padN : Nat) (kvs : List (String × Json))
    (ihs : ∀ kv ∈ kvs, ∀ ind lvl fuel rest, (renderP ind lvl kv.2).length < fuel →
      noDigitHead rest → parseValue fuel (renderP ind lvl kv.2 ++ rest) = some (kv.2, rest)) :
    ∀ kv : String × Json,
      (∀ ind lvl fuel rest, (renderP ind lvl kv.2).length < fuel → noDigitHead rest →
        parseValue fuel (renderP ind lvl kv.2 ++ rest) = some (kv.2, rest)) →
      ∀ fuel rest, (renderMemberP ind lvl kv).length + (renderMembersP ind lvl kvs).length + 1 < fuel →
        parseMembers fuel (renderMemberP ind lvl kv ++ (renderMembersP ind lvl kvs ++
          ('\n' :: (padChars padN ++ ('\x7d' :: rest))))) = some (kv :: kvs, rest) := by
  induction kvs with
  | nil =>
    intro kv ihv fuel rest hlen
    obtain ⟨k, v⟩ := kv
    replace ihv : ∀ ind lvl fuel rest, (renderP ind lvl v).length < fuel → noDigitHead rest →
        parseValue fuel (renderP ind lvl v ++ rest) = some (v, rest) := ihv
    cases fuel with
    | zero => omega
    | succ f =>
      have hmlen : (renderMemberP ind lvl (k, v)).length =
          (escapeList escapeChar k.data).length + (renderP ind lvl v).length + 4 := by
        rw [renderMemberP_def]
        simp [List.length_append]
        omega
      have hskip : skipWs ('\n' :: (padChars padN ++ ('\x7d' :: rest))) = '\x7d' :: rest := by
        rw [skipWs_ws_cons (by decide), skipWs_pad,
          skipWs_cons_of_not_ws (by decide)]
      rw [renderMembersP_nil, List.nil_append, renderMemberP_def]
      simp only [List.cons_append, List.append_assoc, List.nil_append]
      rw [parseMembers_succ]
      simp only [reduceIte]
      rw [parseStringBody_escape]
      simp only [skipWs_cons_of_not_ws (by decide : isWsChar ':' = false),
        List.head?_cons, List.tail_cons, Option.some.injEq, reduceIte]
      rw [parseValue_spaceLead]
      rw [ihv ind lvl f ('\n' :: (padChars padN ++ ('\x7d' :: rest))) (by omega)
        (noDigitHead_cons (by decide) _)]
      simp [hskip]
  | cons kv2 kvs2 ihl =>
    intro kv ihv fuel rest hlen
    obtain ⟨k, v⟩ := kv
    replace ihv : ∀ ind lvl fuel rest, (renderP ind lvl v).length < fuel → noDigitHead rest →
        parseValue fuel (renderP ind lvl v ++ rest) = some (v, rest) := ihv
    cases fuel with
    | zero => omega
    | succ f =>
      have hmlen : (renderMemberP ind lvl (k, v)).length =
          (escapeList escapeChar k.data).length + (renderP ind lvl v).length + 4 := by
        rw [renderMemberP_def]
        simp [List.length_append]
        omega
      have hleny : (renderMembersP ind lvl (kv2 :: kvs2)).length =
          2 + ind * lvl + (renderMemberP ind lvl kv2).length +
            (renderMembersP ind lvl kvs2).length := by
        rw [renderMembersP_cons]
        simp [List.length_append, padChars]
        omega
      rw [renderMembersP_cons, renderMemberP_def]
      simp only [List.cons_append, List.append_assoc, List.nil_append]
      rw [parseMembers_succ]
      simp only [reduceIte]
      rw [parseStringBody_escape]
      simp only [skipWs_cons_of_not_ws (by decide : isWsChar ':' = false),
        List.head?_cons, List.tail_cons, Option.some.injEq, reduceIte]
      rw [parseValue_spaceLead]
      rw [ihv ind lvl f (',' :: '\n' :: (padChars (ind * lvl) ++ (renderMemberP ind lvl kv2 ++
          (renderMembersP ind lvl kvs2 ++ ('\n' :: (padChars padN ++ ('\x7d' :: rest)))))))
        (by omega) (noDigitHead_cons (by decide) _)]
      simp only [skipWs_cons_of_not_ws (by decide : isWsChar ',' = false),
        List.head?_cons, List.tail_cons, Option.some.injEq, reduceIte]
      have hskip2 : skipWs ('\n' :: (padChars (ind * lvl) ++ (renderMemberP ind lvl kv2 ++
          (renderMembersP ind lvl kvs2 ++ ('\n' :: (padChars padN ++ ('\x7d' :: rest))))))) =
          renderMemberP ind lvl kv2 ++ (renderMembersP ind lvl kvs2 ++
            ('\n' :: (padChars padN ++ ('\x7d' :: rest)))) := by
        rw [skipWs_ws_cons (by decide), skipWs_pad, renderMemberP_def, List.cons_append,
          skipWs_cons_of_not_ws (by decide : isWsChar '"' = false)]
      rw [hskip2]
      rw [ihl (fun z hz => ihs z (List.mem_cons_of_mem kv2 hz)) kv2
        (ihs kv2 (List.mem_cons_self kv2 kvs2)) f rest (by omega)]

/-- The parser also inverts the pretty renderer (any indent width, any
nesting level). -/
theorem parseValue_renderP (v : Json) : ∀ ind lvl fuel rest,
    (renderP ind lvl v).length < fuel → noDigitHead rest →
    parseValue fuel (renderP ind lvl v ++ rest) = some (v, rest) := by
  induction v using Json.inductionOn with
  | hnull =>
    intro ind lvl fuel rest hlen hnd
    rw [renderP_null]
    rw [renderP_null] at hlen
    rw [← renderC_null] at hlen ⊢
    exact parseValue_renderC .null fuel rest hlen hnd
  | hbool b =>
    intro ind lvl fuel rest hlen hnd
    cases b with
    | true =>
      rw [renderP_true, ← renderC_true] at hlen ⊢
      exact parseValue_renderC (.bool true) fuel rest hlen hnd
    | false =>
      rw [renderP_false, ← renderC_false] at hlen ⊢
      exact parseValue_renderC (.bool false) fuel rest hlen hnd
  | hnum n =>
    intro ind lvl fuel rest hlen hnd
    rw [renderP_num, ← renderC_num] at hlen ⊢
    exact parseValue_renderC (.num n) fuel rest hlen hnd
  | hstr s =>
    intro ind lvl fuel rest hlen hnd
    rw [renderP_str, ← renderC_str] at hlen ⊢
    exact parseValue_renderC (.str s) fuel rest hlen hnd
  | harr xs ih =>
    intro ind lvl fuel rest hlen hnd
    cases fuel with
    | zero => exact absurd hlen (by omega)
    | succ f =>
      cases xs with
      | nil =>
        rw [renderP_arrNil, ← renderC_arrNil] at hlen ⊢
        exact parseValue_renderC (.arr []) (f + 1) rest hlen hnd
      | cons x xs =>
        have hlen2 : (renderP ind (lvl + 1) x).length +
            (renderItemsP ind (lvl + 1) xs).length + 1 < f := by
          rw [renderP_arrCons] at hlen
          simp [List.length_append, padChars] at hlen
          omega
        have hskip : skipWs ('\n' :: (padChars (ind * (lvl + 1)) ++
            (renderP ind (lvl + 1) x ++ (renderItemsP ind (lvl + 1) xs ++
              ('\n' :: (padChars (ind * lvl) ++ (']' :: rest))))))) =
            renderP ind (lvl + 1) x ++ (renderItemsP ind (lvl + 1) xs ++
              ('\n' :: (padChars (ind * lvl) ++ (']' :: rest)))) := by
          rw [skipWs_ws_cons (by decide), skipWs_pad, skipWs_renderP_append]
        rw [renderP_arrCons]
        simp only [List.cons_append, List.append_assoc, List.nil_append,
          List.singleton_append]
        rw [pv_arr f _ (by
          rw [hskip]
          exact head_renderP_append_ne ind (lvl + 1) x _ ']' (Or.inl rfl))]
        rw [hskip]
        rw [parseItemsP_aux ind (lvl + 1) (ind * lvl) xs
          (fun y hy => ih y (List.mem_cons_of_mem x hy)) x
          (ih x (List.mem_cons_self x xs)) f rest (by omega)]
        rfl
  | hobj kvs ih =>
    intro ind lvl fuel rest hlen hnd
    cases fuel with
    | zero => exact absurd hlen (by omega)
    | succ f =>
      cases kvs with
      | nil =>
        rw [renderP_objNil, ← renderC_objNil] at hlen ⊢
        exact parseValue_renderC (.obj []) (f + 1) rest hlen hnd
      | cons kv kvs =>
        have hlen2 : (renderMemberP ind (lvl + 1) kv).length +
            (renderMembersP ind (lvl + 1) kvs).length + 1 < f := by
          rw [renderP_objCons] at hlen
          simp [List.length_append, padChars] at hlen
          omega
        have hmhead : skipWs (renderMemberP ind (lvl + 1) kv ++
            (renderMembersP ind (lvl + 1) kvs ++
              ('\n' :: (padChars (ind * lvl) ++ ('\x7d' :: rest))))) =
            renderMemberP ind (lvl + 1) kv ++ (renderMembersP ind (lvl + 1) kvs ++
              ('\n' :: (padChars (ind * lvl) ++ ('\x7d' :: rest)))) := by
          rw [renderMemberP_def, List.cons_append,
            skipWs_cons_of_not_ws (by decide : isWsChar '"' = false)]
        have hskip : skipWs ('\n' :: (padChars (ind * (lvl + 1)) ++
            (renderMemberP ind (lvl + 1) kv ++ (renderMembersP ind (lvl + 1) kvs ++
              ('\n' :: (padChars (ind * lvl) ++ ('\x7d' :: rest))))))) =
            renderMemberP ind (lvl + 1) kv ++ (renderMembersP ind (lvl + 1) kvs ++
              ('\n' :: (padChars (ind * lvl) ++ ('\x7d' :: rest)))) := by
          rw [skipWs_ws_cons (by decide), skipWs_pad, hmhead]
        have hhead : (renderMemberP ind (lvl + 1) kv ++
            (renderMembersP ind (lvl + 1) kvs ++
              ('\n' :: (padChars (ind * lvl) ++ ('\x7d' :: rest))))).head? ≠ some '\x7d' := by
          rw [renderMemberP_def, List.cons_append, List.head?_cons]
          intro hcon
          simp only [Option.some.injEq] at hcon
          exact absurd hcon (by decide : ¬('"' : Char) = '\x7d')
        rw [renderP_objCons]
        simp only [List.cons_append, List.append_assoc, List.nil_append,
          List.singleton_append]
        rw [pv_obj f _ (by rw [hskip]; exact hhead)]
        rw [hskip]
        rw [parseMembersP_aux ind (lvl + 1) (ind * lvl) kvs
          (fun z hz => ih z (List.mem_cons_of_mem kv hz)) kv
          (ih kv (List.mem_cons_self kv kvs)) f rest (by omega)]
        rfl

/-- Model of `json.load` reading back a file written by `json.dump(...,
indent=2, ensure_ascii=False)`: a full round trip on every JSON value. -/
theorem parseJson_renderP (ind : Nat) (v : Json) :
    parseJson (String.mk (renderP ind 0 v)) = some v := by
  have hdata : (String.mk (renderP ind 0 v)).data = renderP ind 0 v := rfl
  rw [parseJson, hdata]
  have h := parseValue_renderP v ind 0 ((renderP ind 0 v).length + 1) [] (by omega)
    noDigitHead_nil
  rw [List.append_nil] at h
  rw [h]
  simp [skipWs]

/-! ### UTF-8, modelling `str.encode()` and `bytes.decode(errors="replace")` -/

/-- Unicode replacement character U+FFFD. -/
def replacementChar : Char := Char.ofNat 65533

/-- UTF-8 encoding of one code point as byte values. -/
def utf8EncodeChar (c : Char) : List Nat :=
  if c.toNat < 128 then [c.toNat]
  else if c.toNat < 2048 then [192 + c.toNat / 64, 128 + c.toNat % 64]
  else if c.toNat < 65536 then
    [224 + c.toNat / 4096, 128 + c.toNat / 64 % 64, 128 + c.toNat % 64]
  else
    [240 + c.toNat / 262144, 128 + c.toNat / 4096 % 64, 128 + c.toNat / 64 % 64,
      128 + c.toNat % 64]

/-- UTF-8 encoding of a character list. -/
def utf8Encode : List Char → List Nat
  | [] => []
  | c :: cs => utf8EncodeChar c ++ utf8Encode cs

mutual

/-- Lossy UTF-8 decoding: well-formed sequences become their code point,
malformed sequences become U+FFFD (as the replace error handler of the
Python decoder does;
the exact replacement granularity is irrelevant here because the
round-trip theorems only evaluate it on well-formed `utf8Encode`
output). -/
def utf8DecodeLossy : List Nat → List Char
  | [] => []
  | b :: bs =>
    if b < 128 then Char.ofNat b :: utf8DecodeLossy bs
    else if b < 192 then replacementChar :: utf8DecodeLossy bs
    else if b < 224 then utf8Decode2 b bs
    else if b < 240 then utf8Decode3 b bs
    else if b < 248 then utf8Decode4 b bs
    else replacementChar :: utf8DecodeLossy bs

/-- Continuation of a two-byte UTF-8 sequence. -/
def utf8Decode2 (b : Nat) : List Nat → List Char
  | b1 :: bs1 =>
    if 128 ≤ b1 ∧ b1 < 192 ∧ 128 ≤ (b - 192) * 64 + (b1 - 128) then
      Char.ofNat ((b - 192) * 64 + (b1 - 128)) :: utf8DecodeLossy bs1
    else replacementChar :: utf8DecodeLossy bs1
  | [] => [replacementChar]

/-- Continuation of a three-byte UTF-8 sequence. -/
def utf8Decode3 (b : Nat) : List Nat → List Char
  | b1 :: b2 :: bs2 =>
    if 128 ≤ b1 ∧ b1 < 192 ∧ 128 ≤ b2 ∧ b2 < 192 ∧
        2048 ≤ (b - 224) * 4096 + (b1 - 128) * 64 + (b2 - 128) ∧
        ((b - 224) * 4096 + (b1 - 128) * 64 + (b2 - 128) < 55296 ∨
          57343 < (b - 224) * 4096 + (b1 - 128) * 64 + (b2 - 128)) then
      Char.ofNat ((b - 224) * 4096 + (b1 - 128) * 64 + (b2 - 128)) :: utf8DecodeLossy bs2
    else replacementChar :: utf8DecodeLossy bs2
  | _ => [replacementChar]

/-- Continuation of a four-byte UTF-8 sequence. -/
def utf8Decode4 (b : Nat) : List Nat → List Char
  | b1 :: b2 :: b3 :: bs3 =>
    if 128 ≤ b1 ∧ b1 < 192 ∧ 128 ≤ b2 ∧ b2 < 192 ∧ 128 ≤ b3 ∧ b3 < 192 ∧
        65536 ≤ (b - 240) * 262144 + (b1 - 128) * 4096 + (b2 - 128) * 64 + (b3 - 128) ∧
        (b - 240) * 262144 + (b1 - 128) * 4096 + (b2 - 128) * 64 + (b3 - 128) < 1114112 then
      Char.ofNat ((b - 240) * 262144 + (b1 - 128) * 4096 + (b2 - 128) * 64 + (b3 - 128)) ::
        utf8DecodeLossy bs3
    else replacementChar :: utf8DecodeLossy bs3
  | _ => [replacementChar]

end

theorem char_toNat_valid (c : Char) :
    c.toNat < 55296 ∨ (57343 < c.toNat ∧ c.toNat < 1114112) := by
  have hv : c.val.isValidChar := c.valid
  rcases hv with h | ⟨h1, h2⟩
  · left
    exact h
  · right
    exact ⟨h1, h2⟩

theorem utf8DecodeLossy_encodeChar (c : Char) (bs : List Nat) :
    utf8DecodeLossy (utf8EncodeChar c ++ bs) = c :: utf8DecodeLossy bs := by
  have hv := char_toNat_valid c
  by_cases h1 : c.toNat < 128
  · rw [utf8EncodeChar, if_pos h1, List.cons_append, List.nil_append,
      utf8DecodeLossy.eq_def]
    simp only [if_pos h1, Char.ofNat_toNat]
  · by_cases h2 : c.toNat < 2048
    · rw [utf8EncodeChar, if_neg h1, if_pos h2]
      simp only [List.cons_append, List.nil_append]
      rw [utf8DecodeLossy.eq_def]
      simp only [if_neg (by omega : ¬192 + c.toNat / 64 < 128),
        if_neg (by omega : ¬192 + c.toNat / 64 < 192),
        if_pos (by omega : 192 + c.toNat / 64 < 224)]
      rw [utf8Decode2.eq_def]
      have hn : (192 + c.toNat / 64 - 192) * 64 + (128 + c.toNat % 64 - 128) = c.toNat := by
        omega
      simp only [if_pos (by omega : 128 ≤ 128 + c.toNat % 64 ∧ 128 + c.toNat % 64 < 192 ∧
        128 ≤ (192 + c.toNat / 64 - 192) * 64 + (128 + c.toNat % 64 - 128))]
      rw [hn, Char.ofNat_toNat]
    · by_cases h3 : c.toNat < 65536
      · rw [utf8EncodeChar, if_neg h1, if_neg h2, if_pos h3]
        simp only [List.cons_append, List.nil_append]
        rw [utf8DecodeLossy.eq_def]
        simp only [if_neg (by omega : ¬224 + c.toNat / 4096 < 128),
          if_neg (by omega : ¬224 + c.toNat / 4096 < 192),
          if_neg (by omega : ¬224 + c.toNat / 4096 < 224),
          if_pos (by omega : 224 + c.toNat / 4096 < 240)]
        rw [utf8Decode3.eq_def]
        have hn : (224 + c.toNat / 4096 - 224) * 4096 + (128 + c.toNat / 64 % 64 - 128) * 64 +
            (128 + c.toNat % 64 - 128) = c.toNat := by omega
        simp only [if_pos (by omega : 128 ≤ 128 + c.toNat / 64 % 64 ∧
          128 + c.toNat / 64 % 64 < 192 ∧ 128 ≤ 128 + c.toNat % 64 ∧
          128 + c.toNat % 64 < 192 ∧
          2048 ≤ (224 + c.toNat / 4096 - 224) * 4096 +
            (128 + c.toNat / 64 % 64 - 128) * 64 + (128 + c.toNat % 64 - 128) ∧
          ((224 + c.toNat / 4096 - 224) * 4096 + (128 + c.toNat / 64 % 64 - 128) * 64 +
              (128 + c.toNat % 64 - 128) < 55296 ∨
            57343 < (224 + c.toNat / 4096 - 224) * 4096 +
              (128 + c.toNat / 64 % 64 - 128) * 64 + (128 + c.toNat % 64 - 128)))]
        rw [hn, Char.ofNat_toNat]
      · rw [utf8EncodeChar, if_neg h1, if_neg h2, if_neg h3]
        simp only [List.cons_append, List.nil_append]
        rw [utf8DecodeLossy.eq_def]
        simp only [if_neg (by omega : ¬240 + c.toNat / 262144 < 128),
          if_neg (by omega : ¬240 + c.toNat / 262144 < 192),
          if_neg (by omega : ¬240 + c.toNat / 262144 < 224),
          if_neg (by omega : ¬240 + c.toNat / 262144 < 240),
          if_pos (by omega : 240 + c.toNat / 262144 < 248)]
        rw [utf8Decode4.eq_def]
        have hn : (240 + c.toNat / 262144 - 240) * 262144 +
            (128 + c.toNat / 4096 % 64 - 128) * 4096 +
            (128 + c.toNat / 64 % 64 - 128) * 64 + (128 + c.toNat % 64 - 128) = c.toNat := by
          omega
        simp only [if_pos (by omega : 128 ≤ 128 + c.toNat / 4096 % 64 ∧
          128 + c.toNat / 4096 % 64 < 192 ∧ 128 ≤ 128 + c.toNat / 64 % 64 ∧
          128 + c.toNat / 64 % 64 < 192 ∧ 128 ≤ 128 + c.toNat % 64 ∧
          128 + c.toNat % 64 < 192 ∧
          65536 ≤ (240 + c.toNat / 262144 - 240) * 262144 +
            (128 + c.toNat / 4096 % 64 - 128) * 4096 +
            (128 + c.toNat / 64 % 64 - 128) * 64 + (128 + c.toNat % 64 - 128) ∧
          (240 + c.toNat / 262144 - 240) * 262144 +
            (128 + c.toNat / 4096 % 64 - 128) * 4096 +
            (128 + c.toNat / 64 % 64 - 128) * 64 + (128 + c.toNat % 64 - 128) < 1114112)]
        rw [hn, Char.ofNat_toNat]

theorem utf8DecodeLossy_encode (cs : List Char) :
    utf8DecodeLossy (utf8Encode cs) = cs := by
  induction cs with
  | nil => rfl
  | cons c cs ih =>
    rw [utf8Encode, utf8DecodeLossy_encodeChar, ih]

theorem utf8EncodeChar_lt (c : Char) : ∀ b ∈ utf8EncodeChar c, b < 256 := by
  intro b hb
  rw [utf8EncodeChar] at hb
  by_cases h1 : c.toNat < 128
  · rw [if_pos h1] at hb
    simp at hb
    omega
  · rw [if_neg h1] at hb
    by_cases h2 : c.toNat < 2048
    · rw [if_pos h2] at hb
      simp at hb
      rcases hb with h | h <;> omega
    · rw [if_neg h2] at hb
      by_cases h3 : c.toNat < 65536
      · rw [if_pos h3] at hb
        simp at hb
        have hv := char_toNat_valid c
        rcases hb with h | h | h <;> omega
      · rw [if_neg h3] at hb
        simp at hb
        have hv := char_toNat_valid c
        rcases hb with h | h | h | h <;> omega

theorem utf8Encode_lt (cs : List Char) : ∀ b ∈ utf8Encode cs, b < 256 := by
  induction cs with
  | nil => intro b hb; simp [utf8Encode] at hb
  | cons c cs ih =>
    intro b hb
    rw [utf8Encode] at hb
    rcases List.mem_append.mp hb with h | h
    · exact utf8EncodeChar_lt c b h
    · exact ih b h

/-! ### Base64, modelling `base64.b64encode` / `base64.b64decode` -/

/-- Character of the standard base64 alphabet for a sextet value. -/
def sextetChar (n : Nat) : Char :=
  if n < 26 then Char.ofNat (65 + n)
  else if n < 52 then Char.ofNat (97 + (n - 26))
  else if n < 62 then Char.ofNat (48 + (n - 52))
  else if n = 62 then '+'
  else '/'

/-- Sextet value of a standard base64 alphabet character. -/
def charSextet (c : Char) : Option Nat :=
  if 65 ≤ c.toNat ∧ c.toNat ≤ 90 then some (c.toNat - 65)
  else if 97 ≤ c.toNat ∧ c.toNat ≤ 122 then some (c.toNat - 97 + 26)
  else if 48 ≤ c.toNat ∧ c.toNat ≤ 57 then some (c.toNat - 48 + 52)
  else if c = '+' then some 62
  else if c = '/' then some 63
  else none

theorem charSextet_sextetChar : ∀ n < 64, charSextet (sextetChar n) = some n := by decide

theorem sextetChar_ne_pad : ∀ n < 64, sextetChar n ≠ '=' := by decide

/-- Base64 encoding of a byte list, three bytes to four characters, with
trailing `=` padding, as `base64.b64encode` produces. -/
def b64encodeBytes : List Nat → List Char
  | [] => []
  | [b0] => [sextetChar (b0 / 4), sextetChar (b0 % 4 * 16), '=', '=']
  | [b0, b1] =>
      [sextetChar (b0 / 4), sextetChar (b0 % 4 * 16 + b1 / 16), sextetChar (b1 % 16 * 4), '=']
  | b0 :: b1 :: b2 :: rest =>
      sextetChar (b0 / 4) :: sextetChar (b0 % 4 * 16 + b1 / 16) ::
        sextetChar (b1 % 16 * 4 + b2 / 64) :: sextetChar (b2 % 64) :: b64encodeBytes rest

/-- Decoding of the final (possibly padded) base64 quadruple. -/
def b64decodeGroup (c0 c1 c2 c3 : Char) : Option (List Nat) :=
  match charSextet c0, charSextet c1 with
  | some s0, some s1 =>
    if c2 = '=' ∧ c3 = '=' then some [s0 * 4 + s1 / 16]
    else if c3 = '=' then
      match charSextet c2 with
      | some s2 => some [s0 * 4 + s1 / 16, s1 % 16 * 16 + s2 / 4]
      | none => none
    else
      match charSextet c2, charSextet c3 with
      | some s2, some s3 =>
          some [s0 * 4 + s1 / 16, s1 % 16 * 16 + s2 / 4, s2 % 4 * 64 + s3]
      | _, _ => none
  | _, _ => none

/-- Base64 decoding: the input must be a sequence of quadruples, with
padding allowed only in the final one; anything else is invalid
(`base64.b64decode` raises `binascii.Error`, modelled as `none`). -/
def b64decodeChars : List Char → Option (List Nat)
  | [] => some []
  | c0 :: c1 :: c2 :: c3 :: rest =>
    if rest.isEmpty then b64decodeGroup c0 c1 c2 c3
    else
      match charSextet c0, charSextet c1, charSextet c2, charSextet c3,
          b64decodeChars rest with
      | some s0, some s1, some s2, some s3, some bs =>
          some ((s0 * 4 + s1 / 16) :: (s1 % 16 * 16 + s2 / 4) :: ((s2 % 4 * 64 + s3) :: bs))
      | _, _, _, _, _ => none
  | _ => none

theorem b64decodeChars_four (c0 c1 c2 c3 : Char) :
    b64decodeChars [c0, c1, c2, c3] = b64decodeGroup c0 c1 c2 c3 := by
  rw [b64decodeChars.eq_def]
  simp

theorem b64decodeChars_more (c0 c1 c2 c3 : Char) (rest : List Char) (h : rest ≠ []) :
    b64decodeChars (c0 :: c1 :: c2 :: c3 :: rest) =
      match charSextet c0, charSextet c1, charSextet c2, charSextet c3,
          b64decodeChars rest with
      | some s0, some s1, some s2, some s3, some bs =>
          some ((s0 * 4 + s1 / 16) :: (s1 % 16 * 16 + s2 / 4) :: ((s2 % 4 * 64 + s3) :: bs))
      | _, _, _, _, _ => none := by
  have hemp : rest.isEmpty = false := by
    cases rest with
    | nil => exact absurd rfl h
    | cons a t => rfl
  rw [b64decodeChars.eq_def]
  simp only [hemp, Bool.false_eq_true, if_false]

theorem b64encodeBytes_ne_nil (b : Nat) (bs : List Nat) : b64encodeBytes (b :: bs) ≠ [] := by
  rw [b64encodeBytes.eq_def]
  cases bs with
  | nil => simp
  | cons b1 bs1 =>
    cases bs1 with
    | nil => simp
    | cons b2 bs2 => simp

theorem b64decode_encode : ∀ bs : List Nat, (∀ b ∈ bs, b < 256) →
    b64decodeChars (b64encodeBytes bs) = some bs
  | [] => fun _ => rfl
  | [b0] => by
    intro h
    have hb0 : b0 < 256 := h b0 (by simp)
    rw [b64encodeBytes, b64decodeChars_four, b64decodeGroup]
    rw [charSextet_sextetChar (b0 / 4) (by omega),
      charSextet_sextetChar (b0 % 4 * 16) (by omega)]
    simp only [reduceIte, and_self]
    have e1 : b0 / 4 * 4 + b0 % 4 * 16 / 16 = b0 := by omega
    rw [e1]
  | [b0, b1] => by
    intro h
    have hb0 : b0 < 256 := h b0 (by simp)
    have hb1 : b1 < 256 := h b1 (by simp)
    have hpad : sextetChar (b1 % 16 * 4) ≠ '=' := sextetChar_ne_pad _ (by omega)
    rw [b64encodeBytes, b64decodeChars_four, b64decodeGroup]
    rw [charSextet_sextetChar (b0 / 4) (by omega),
      charSextet_sextetChar (b0 % 4 * 16 + b1 / 16) (by omega),
      charSextet_sextetChar (b1 % 16 * 4) (by omega)]
    simp only [hpad, false_and, and_true, reduceIte, if_false]
    have e1 : b0 / 4 * 4 + (b0 % 4 * 16 + b1 / 16) / 16 = b0 := by omega
    have e2 : (b0 % 4 * 16 + b1 / 16) % 16 * 16 + b1 % 16 * 4 / 4 = b1 := by omega
    rw [e1, e2]
  | b0 :: b1 :: b2 :: rest => by
    intro h
    have hb0 : b0 < 256 := h b0 (by simp)
    have hb1 : b1 < 256 := h b1 (by simp)
    have hb2 : b2 < 256 := h b2 (by simp)
    cases rest with
    | nil =>
      have hpad2 : sextetChar (b1 % 16 * 4 + b2 / 64) ≠ '=' := sextetChar_ne_pad _ (by omega)
      have hpad3 : sextetChar (b2 % 64) ≠ '=' := sextetChar_ne_pad _ (by omega)
      have henc : b64encodeBytes [b0, b1, b2] =
          [sextetChar (b0 / 4), sextetChar (b0 % 4 * 16 + b1 / 16),
            sextetChar (b1 % 16 * 4 + b2 / 64), sextetChar (b2 % 64)] := by
        rw [b64encodeBytes, b64encodeBytes]
      rw [henc, b64decodeChars_four, b64decodeGroup]
      rw [charSextet_sextetChar (b0 / 4) (by omega),
        charSextet_sextetChar (b0 % 4 * 16 + b1 / 16) (by omega),
        charSextet_sextetChar (b1 % 16 * 4 + b2 / 64) (by omega),
        charSextet_sextetChar (b2 % 64) (by omega)]
      simp only [hpad2, hpad3, false_and, and_false, reduceIte, if_false]
      have e1 : b0 / 4 * 4 + (b0 % 4 * 16 + b1 / 16) / 16 = b0 := by omega
      have e2 : (b0 % 4 * 16 + b1 / 16) % 16 * 16 + (b1 % 16 * 4 + b2 / 64) / 4 = b1 := by
        omega
      have e3 : (b1 % 16 * 4 + b2 / 64) % 4 * 64 + b2 % 64 = b2 := by omega
      rw [e1, e2, e3]
    | cons b3 rest2 =>
      rw [b64encodeBytes,
        b64decodeChars_more _ _ _ _ _ (b64encodeBytes_ne_nil b3 rest2)]
      rw [charSextet_sextetChar (b0 / 4) (by omega),
        charSextet_sextetChar (b0 % 4 * 16 + b1 / 16) (by omega),
        charSextet_sextetChar (b1 % 16 * 4 + b2 / 64) (by omega),
        charSextet_sextetChar (b2 % 64) (by omega),
        b64decode_encode (b3 :: rest2) (fun b hb => h b (by simp at hb ⊢; tauto))]
      have e1 : b0 / 4 * 4 + (b0 % 4 * 16 + b1 / 16) / 16 = b0 := by omega
      have e2 : (b0 % 4 * 16 + b1 / 16) % 16 * 16 + (b1 % 16 * 4 + b2 / 64) / 4 = b1 := by
        omega
      have e3 : (b1 % 16 * 4 + b2 / 64) % 4 * 64 + b2 % 64 = b2 := by omega
      simp only [e1, e2, e3]

/-! ### Payload codec (spec section 4.4) -/

/-- Result of the codec's `decode`: a parsed JSON value or plain text. -/
inductive DecodeResult where
  | json (j : Json)
  | text (s : String)
deriving DecidableEq, Repr

/-- Modelled from the spec: the Payload Codec's `encode` operation is
described in the specification (section 4.4) but absent from
`src/app.py` (which never imports `base64`): canonicalize the value to
compact JSON text, then base64-encode the UTF-8 bytes. -/
def encodeJson (v : Json) : String :=
  String.mk (b64encodeBytes (utf8Encode (renderC v)))

/-- Modelled from the spec: the Payload Codec's `decode` operation,
likewise absent from `src/app.py`: base64-decode the text (returning the
input unchanged when it is not valid base64), lossily UTF-8-decode the
bytes, and parse them as JSON when possible, else return them as text. -/
def decodeJson (s : String) : DecodeResult :=
  match b64decodeChars s.data with
  | none => .text s
  | some bytes =>
    match parseJson (String.mk (utf8DecodeLossy bytes)) with
    | some j => .json j
    | none => .text (String.mk (utf8DecodeLossy bytes))

/-! ### Text substitution engine (spec section 4.5) -/

/-- Literal, non-regex, non-overlapping left-to-right substring
replacement over character lists, with explicit fuel (the fuel never
runs out when it starts at the input length), as Python's
`str.replace`. -/
def replaceAllAux (find repl : List Char) : Nat → List Char → List Char
  | 0, s => s
  | _ + 1, [] => []
  | f + 1, c :: rest =>
    if find.isPrefixOf (c :: rest) then
      repl ++ replaceAllAux find repl f ((c :: rest).drop find.length)
    else c :: replaceAllAux find repl f rest

/-- Modelled from the spec: literal substring replacement as used by the
Text Substitution Engine (section 4.5), absent from `src/app.py` (the
find/replace sidebar values are collected but never applied); an empty
`find` leaves the string unchanged. -/
def replaceAll (find repl s : String) : String :=
  if find.data = [] then s
  else String.mk (replaceAllAux find.data repl.data s.data.length s.data)

/-- Apply every non-inert rule, in listed order, to one string: each
rule operates on the output of the previous rule. -/
def applyRulesStr (rules : List (String × String)) (s : String) : String :=
  rules.foldl (fun acc r => if r.1.data = [] then acc else replaceAll r.1 r.2 acc) s

mutual

/-- Modelled from the spec: `applySubstitutions(value, rules)` (section
4.5), absent from `src/app.py`: recursively rewrite every string leaf of
the value with the ordered rule list, rebuilding mappings (keys
untouched) and sequences, and passing every other leaf through. -/
def applySubstitutions (rules : List (String × String)) : Json → Json
  | .null => .null
  | .bool b => .bool b
  | .num n => .num n
  | .str s => .str (applyRulesStr rules s)
  | .arr xs => .arr (applySubsList rules xs)
  | .obj kvs => .obj (applySubsMembers rules kvs)

/-- Substitution applied to every element of a sequence. -/
def applySubsList (rules : List (String × String)) : List Json → List Json
  | [] => []
  | x :: xs => applySubstitutions rules x :: applySubsList rules xs

/-- Substitution applied to every value of a mapping (keys untouched). -/
def applySubsMembers (rules : List (String × String)) :
    List (String × Json) → List (String × Json)
  | [] => []
  | kv :: kvs => (kv.1, applySubstitutions rules kv.2) :: applySubsMembers rules kvs

end

/-! ### Model of the network-facing functions of src/app.py

Each function takes an explicit `respond` argument standing for the
behaviour of the remote server: `respond` maps a request to either the
exception message raised by `requests` or an `HttpResponse`.
`resp.json()` is modelled by `parseJson` (JSON numbers restricted to
integers, as everywhere in this file). -/

/-- An HTTP response as seen by the `requests` library. -/
structure HttpResponse where
  status : Nat
  body : String
deriving DecidableEq, Repr

/-- Python's `str.rstrip("/")`: drop every trailing slash. -/
def rstripSlashes (s : String) : String :=
  String.mk ((s.data.reverse.dropWhile fun c => c == '/').reverse)

/-- Python's `str.strip()` (leading and trailing whitespace removed;
modelled with the JSON whitespace set, which covers every character this
application's bodies contain). -/
def pyStripWs (s : String) : String :=
  String.mk (((s.data.dropWhile isWsChar).reverse.dropWhile isWsChar).reverse)

/-- Python's `str.strip('"')`: drop every leading and trailing quote. -/
def pyStripQuotes (s : String) : String :=
  String.mk ((((s.data.dropWhile fun c => c == '"').reverse.dropWhile
    fun c => c == '"')).reverse)

/-- Python's `text[:200]` character slice. -/
def take200 (s : String) : String := String.mk (s.data.take 200)

/-- Decimal rendering of an HTTP status, as interpolated by an f-string. -/
def statusText (n : Nat) : String := String.mk (natChars n)

/-- Substring test over character lists (Python's `needle in haystack`
for strings). -/
def containsSubstring (needle : List Char) : List Char → Bool
  | [] => needle.isPrefixOf []
  | c :: t => needle.isPrefixOf (c :: t) || containsSubstring needle t

/-- Python dict lookup on a parsed JSON object; with duplicate keys the
later member wins, as `json.loads` builds the dict by insertion. -/
def pyDictGet (kvs : List (String × Json)) (key : String) : Option Json :=
  kvs.foldl (fun acc kv => if kv.1 == key then some kv.2 else acc) none

/-- Python's `key in data` on a parsed JSON value: key membership for a
dict, substring for a string, element membership for a list, and a
`TypeError` for every other type. -/
def pyContains (key : String) (data : Json) : Except String Bool :=
  match data with
  | .obj kvs => .ok (kvs.any fun kv => kv.1 == key)
  | .str s => .ok (containsSubstring key.data s.data)
  | .arr xs => .ok (xs.any fun x => x == Json.str key)
  | _ => .error "TypeError: argument is not iterable"

/-! #### try_auth_endpoints (src/app.py lines 37-80) -/

/-- The fixed candidate paths of `try_auth_endpoints`. -/
def authCandidatePaths : List String := ["/auth/login", "/authenticate", "/auth"]

/-- URL construction: the https scheme, then the base url with trailing
slashes stripped, then the candidate path (an f-string in the source). -/
def candidateUrl (baseUrl path : String) : String :=
  "https://" ++ rstripSlashes baseUrl ++ path

/-- The JSON body sent to every auth candidate. -/
def authPayload (username password clientName : String) : Json :=
  .obj [("username", .str username), ("password", .str password),
        ("clientName", .str clientName)]

/-- The `for key in ("token", "access_token", "accessToken")` loop: `key
in data` (which may raise a TypeError on non-dict data), then
`data[key]` (which raises on a string or list) guarded by
`isinstance(data[key], str)`. -/
def authKeysLoop (data : Json) : List String → Except String (Option String)
  | [] => .ok none
  | key :: keys =>
    match pyContains key data with
    | .error e => .error e
    | .ok true =>
      match data with
      | .obj kvs =>
        match pyDictGet kvs key with
        | some (.str t) => .ok (some t)
        | _ => authKeysLoop data keys
      | _ => .error "TypeError: string indices must be integers"
    | .ok false => authKeysLoop data keys

/-- The `for v in data.values()` fallback: first string value longer
than 10 characters, in insertion order. -/
def firstLongString : List (String × Json) → Option String
  | [] => none
  | (_, .str v) :: rest => if 10 < v.data.length then some v else firstLongString rest
  | _ :: rest => firstLongString rest

/-- Token extraction from a 200/201 response body (the `try: data =
resp.json() ... except ValueError` block): `.error` is an uncaught
TypeError, `.ok none` falls through to the next candidate, `.ok (some
t)` returns the token `t`. -/
def extractToken (body : String) : Except String (Option String) :=
  match parseJson body with
  | some data =>
    match authKeysLoop data ["token", "access_token", "accessToken"] with
    | .error e => .error e
    | .ok (some t) => .ok (some t)
    | .ok none =>
      match data with
      | .obj kvs => .ok (firstLongString kvs)
      | _ => .ok none
  | none =>
    let text := pyStripQuotes (pyStripWs body)
    if text.data = [] then .ok none else .ok (some text)

/-- What one candidate iteration of `try_auth_endpoints` does. -/
inductive AuthStep where
  | raised (e : String)
  | token (t : String)
  | next (newErr : Option String)
deriving DecidableEq, Repr

/-- Evaluation of one candidate: a network error is caught and recorded
in `last_err`; a 2xx response runs token extraction (which may raise or
yield a token); a non-2xx records its status and body snippet in
`last_err`; a token-less 2xx leaves `last_err` unchanged. -/
def authStep (outcome : Except String HttpResponse) : AuthStep :=
  match outcome with
  | .error e => .next (some e)
  | .ok resp =>
    if resp.status = 200 ∨ resp.status = 201 then
      match extractToken resp.body with
      | .error e => .raised e
      | .ok (some t) => .token t
      | .ok none => .next none
    else .next (some (statusText resp.status ++ " " ++ take200 resp.body))

/-- Boolean form of "this candidate raises". -/
def authStepRaises (s : AuthStep) : Bool :=
  match s with
  | .raised _ => true
  | _ => false

/-- Errors surfaced by the model of `try_auth_endpoints`: either an
uncaught TypeError from the extraction block, or the final aggregate
Exception whose message carries the last recorded error. -/
inductive AuthError where
  | typeError (e : String)
  | authFailed (lastErr : Option String)
deriving DecidableEq, Repr

/-- The candidate loop of `try_auth_endpoints`, carrying `last_err`. -/
def authLoop (respond : String → Json → Except String HttpResponse)
    (baseUrl : String) (payload : Json) :
    List String → Option String → Except AuthError String
  | [], lastErr => .error (.authFailed lastErr)
  | p :: ps, lastErr =>
    match authStep (respond (candidateUrl baseUrl p) payload) with
    | .raised e => .error (.typeError e)
    | .token t => .ok t
    | .next none => authLoop respond baseUrl payload ps lastErr
    | .next (some e) => authLoop respond baseUrl payload ps (some e)

/-- Model of `try_auth_endpoints(base_url, username, password,
client_name)`; `respond` stands for `requests.post` on (url, json
payload). -/
def tryAuthEndpoints (respond : String → Json → Except String HttpResponse)
    (baseUrl username password clientName : String) : Except AuthError String :=
  authLoop respond baseUrl (authPayload username password clientName)
    authCandidatePaths none

/-- The fold that computes the final `last_err` of the candidate loop. -/
def lastErrFold (respond : String → Json → Except String HttpResponse)
    (baseUrl : String) (payload : Json) (ps : List String)
    (init : Option String) : Option String :=
  ps.foldl (fun acc p =>
    match authStep (respond (candidateUrl baseUrl p) payload) with
    | .next (some e) => some e
    | _ => acc) init

/-! #### fetch_dataset_codes (src/app.py lines 85-114) -/

/-- The fixed candidate paths of `fetch_dataset_codes`. -/
def listingCandidatePaths : List String := ["/datasets", "/data/datasets", "/api/datasets"]

/-- Normalization of a parsed 200 listing body: a dict whose items,
datasets or data key holds a list yields that list, a bare list is
used as-is, else the one-element fallback list holding the whole value;
calling get on a non-dict non-list value raises an AttributeError
(uncaught in the source). -/
def normalizeListing (data : Json) : Except String (List Json) :=
  match data with
  | .obj kvs =>
    match pyDictGet kvs "items" with
    | some (.arr items) => .ok items
    | _ =>
      match pyDictGet kvs "datasets" with
      | some (.arr l) => .ok l
      | _ =>
        match pyDictGet kvs "data" with
        | some (.arr l) => .ok l
        | _ => .ok [data]
  | .arr l => .ok l
  | _ => .error "AttributeError: object has no attribute get"

/-- The candidate loop of `fetch_dataset_codes`: network errors are
caught and skipped; non-200 statuses are skipped; a 200 whose body is
not valid JSON raises immediately; a 200 with valid JSON is normalized
and returned. -/
def fetchDatasetCodesLoop (respond : String → Except String HttpResponse)
    (baseUrl : String) : List String → Except String (List Json)
  | [] => .error "Failed to fetch dataset codes from known endpoints."
  | p :: ps =>
    match respond (candidateUrl baseUrl p) with
    | .error _ => fetchDatasetCodesLoop respond baseUrl ps
    | .ok resp =>
      if resp.status = 200 then
        match parseJson resp.body with
        | none => .error "Dataset listing returned invalid JSON."
        | some data => normalizeListing data
      else fetchDatasetCodesLoop respond baseUrl ps

/-- Model of `fetch_dataset_codes(token, base_url)`; the token only
feeds the request headers and does not affect the control flow, so
`respond` is keyed by the url. -/
def fetchDatasetCodes (respond : String → Except String HttpResponse)
    (baseUrl : String) : Except String (List Json) :=
  fetchDatasetCodesLoop respond baseUrl listingCandidatePaths

/-! #### code normalization in the Pull Dataset Codes handler
(src/app.py lines 295-308) -/

mutual

/-- Python's `str()` of a parsed JSON value (`repr` for containers,
with single-quoted strings; string escapes inside `repr` are not
modelled, the handler only applies this to scalar code values). -/
def pyStr : Json → List Char
  | .null => ['N', 'o', 'n', 'e']
  | .bool true => ['T', 'r', 'u', 'e']
  | .bool false => ['F', 'a', 'l', 's', 'e']
  | .num n => intChars n
  | .str s => s.data
  | .arr [] => ['[', ']']
  | .arr (x :: xs) => '[' :: (pyReprQ x ++ pyStrItems xs ++ [']'])
  | .obj [] => ['\x7b', '\x7d']
  | .obj (kv :: kvs) =>
      '\x7b' :: (Char.ofNat 39 :: (kv.1.data ++ [Char.ofNat 39, ':', ' '] ++ pyReprQ kv.2 ++
        (pyStrMembers kvs ++ ['\x7d'])))

/-- Python's `repr` for nested positions (strings quoted). -/
def pyReprQ : Json → List Char
  | .str s => Char.ofNat 39 :: (s.data ++ [Char.ofNat 39])
  | .null => ['N', 'o', 'n', 'e']
  | .bool true => ['T', 'r', 'u', 'e']
  | .bool false => ['F', 'a', 'l', 's', 'e']
  | .num n => intChars n
  | .arr [] => ['[', ']']
  | .arr (x :: xs) => '[' :: (pyReprQ x ++ pyStrItems xs ++ [']'])
  | .obj [] => ['\x7b', '\x7d']
  | .obj (kv :: kvs) =>
      '\x7b' :: (Char.ofNat 39 :: (kv.1.data ++ [Char.ofNat 39, ':', ' '] ++ pyReprQ kv.2 ++
        (pyStrMembers kvs ++ ['\x7d'])))

/-- Remaining repr list elements. -/
def pyStrItems : List Json → List Char
  | [] => []
  | x :: xs => ',' :: ' ' :: (pyReprQ x ++ pyStrItems xs)

/-- Remaining repr dict members. -/
def pyStrMembers : List (String × Json) → List Char
  | [] => []
  | kv :: kvs =>
      ',' :: ' ' :: (Char.ofNat 39 :: (kv.1.data ++ [Char.ofNat 39, ':', ' '] ++
        pyReprQ kv.2 ++ pyStrMembers kvs))

end

/-- The `for key in ("code","datasetCode","id","name")` loop with its
`for ... else` fallback `json.dumps(item)`. -/
def codeKeyLoop (kvs : List (String × Json)) : List String → String
  | [] => String.mk (renderD (.obj kvs))
  | key :: keys =>
    match pyDictGet kvs key with
    | some v => String.mk (pyStr v)
    | none => codeKeyLoop kvs keys

/-- The normalization loop of the Pull Dataset Codes handler: derive one
identifier string per raw listing element. -/
def normalizeCodes (raw : List Json) : List String :=
  raw.map fun item =>
    match item with
    | .obj kvs => codeKeyLoop kvs ["code", "datasetCode", "id", "name"]
    | _ => String.mk (pyStr item)

/-- The Pull Dataset Codes handler: listing followed by normalization. -/
def pullDatasetCodes (respond : String → Except String HttpResponse)
    (baseUrl : String) : Except String (List String) :=
  match fetchDatasetCodes respond baseUrl with
  | .error e => .error e
  | .ok raw => .ok (normalizeCodes raw)

/-! #### fetch_dataset (src/app.py lines 116-137) -/

/-- The candidate paths of `fetch_dataset` for a code. -/
def fetchCandidatePaths (code : String) : List String :=
  ["/datasets/" ++ code, "/data/datasets/" ++ code, "/api/datasets/" ++ code]

/-- The candidate loop of `fetch_dataset`: network errors, 404s and
other non-200 statuses all skip to the next candidate; a 200 with valid
JSON returns the parsed body verbatim; a 200 with invalid JSON raises
immediately. -/
def fetchDatasetLoop (respond : String → Except String HttpResponse)
    (baseUrl code : String) : List String → Except String Json
  | [] => .error ("Failed to fetch dataset " ++ String.mk [Char.ofNat 39] ++ code ++
      String.mk [Char.ofNat 39] ++ " from API.")
  | p :: ps =>
    match respond (candidateUrl baseUrl p) with
    | .error _ => fetchDatasetLoop respond baseUrl code ps
    | .ok resp =>
      if resp.status = 200 then
        match parseJson resp.body with
        | some j => .ok j
        | none => .error "Dataset endpoint returned invalid JSON."
      else fetchDatasetLoop respond baseUrl code ps

/-- Model of `fetch_dataset(token, base_url, code)`. -/
def fetchDataset (respond : String → Except String HttpResponse)
    (baseUrl code : String) : Except String Json :=
  fetchDatasetLoop respond baseUrl code (fetchCandidatePaths code)

/-! #### upsert_dataset (src/app.py lines 139-175) -/

/-- Status component of an attempt record: the HTTP status for a
completed request, or the `"err"` marker for a raised exception. -/
inductive StatusOrErr where
  | status (code : Nat)
  | err
deriving DecidableEq, Repr

/-- One entry of the `attempts` list: `(url, status, text[:200])` or
`(url, "err", str(e))`. -/
structure Attempt where
  url : String
  status : StatusOrErr
  snippet : String
deriving DecidableEq, Repr

/-- Model of `try_parse_json_or_text`. -/
def tryParseJsonOrText (resp : HttpResponse) : Json :=
  match parseJson resp.body with
  | some j => j
  | none => .obj [("status_text", .str (pyStripWs resp.body))]

/-- One upsert candidate: return the parsed response on 200/201, else
record the attempt. -/
def attemptCall (outcome : Except String HttpResponse) (url : String) :
    Except Attempt Json :=
  match outcome with
  | .ok r =>
    if r.status = 200 ∨ r.status = 201 then .ok (tryParseJsonOrText r)
    else .error ⟨url, .status r.status, take200 r.body⟩
  | .error e => .error ⟨url, .err, e⟩

/-- The three upsert candidate urls, in order: PUT to the code-scoped
datasets path, POST to the datasets collection path, POST to the
code-scoped upsert path. -/
def upsertUrlPut (baseUrl code : String) : String :=
  "https://" ++ rstripSlashes baseUrl ++ "/datasets/" ++ code

def upsertUrlPost (baseUrl : String) : String :=
  "https://" ++ rstripSlashes baseUrl ++ "/datasets"

def upsertUrlPost2 (baseUrl code : String) : String :=
  "https://" ++ rstripSlashes baseUrl ++ "/datasets/" ++ code ++ "/upsert"

/-- Model of `upsert_dataset(token, base_url, code, payload)`; `respond`
stands for the `requests` call on (verb, url, json payload); failure
carries the aggregated `attempts` list. -/
def upsertDataset (respond : String → String → Json → Except String HttpResponse)
    (baseUrl code : String) (payload : Json) : Except (List Attempt) Json :=
  match attemptCall (respond "PUT" (upsertUrlPut baseUrl code) payload)
      (upsertUrlPut baseUrl code) with
  | .ok res => .ok res
  | .error a1 =>
    match attemptCall (respond "POST" (upsertUrlPost baseUrl) payload)
        (upsertUrlPost baseUrl) with
    | .ok res => .ok res
    | .error a2 =>
      match attemptCall (respond "POST" (upsertUrlPost2 baseUrl code) payload)
          (upsertUrlPost2 baseUrl code) with
      | .ok res => .ok res
      | .error a3 => .error [a1, a2, a3]

/-! #### Local staging store (src/app.py lines 22-35) and the handlers -/

/-- The staging directory contents: per dataset code, the text of the
json file named after that code. -/
def LocalFiles := String → Option String

/-- Model of `save_local_dataset(code, payload)`: write
`json.dump(payload, f, indent=2, ensure_ascii=False)` under the code. -/
def saveLocalDataset (code : String) (payload : Json) (files : LocalFiles) : LocalFiles :=
  fun c => if c = code then some (String.mk (renderP 2 0 payload)) else files c

/-- Model of `load_local_dataset(code)`: `None` when the file is absent,
else the parsed contents (a present file whose contents fail to parse
would raise in Python; the store only ever holds output of
`save_local_dataset`, and the model folds that case into `none`). -/
def loadLocalDataset (code : String) (files : LocalFiles) : Option Json :=
  (files code).bind fun s => parseJson s

/-- One iteration of the bulk fetch loop: fetch the code, save a
success to the staging store, record a failure in the error list. -/
def bulkFetchStep (respond : String → Except String HttpResponse) (baseUrl : String)
    (acc : LocalFiles × Nat × List (String × String)) (code : String) :
    LocalFiles × Nat × List (String × String) :=
  match fetchDataset respond baseUrl code with
  | .ok data => (saveLocalDataset code data acc.1, acc.2.1 + 1, acc.2.2)
  | .error e => (acc.1, acc.2.1, acc.2.2 ++ [(code, e)])

/-- The bulk fetch handler (src/app.py lines 317-336): fetch every code,
save each success to the staging store, collect per-code errors; returns
the updated store, the fetched count and the error list. -/
def bulkFetchHandler (respond : String → Except String HttpResponse)
    (baseUrl : String) (codes : List String) (files : LocalFiles) :
    LocalFiles × Nat × List (String × String) :=
  codes.foldl (bulkFetchStep respond baseUrl) (files, 0, [])

/-- The editor's live-fetch fallback (src/app.py lines 459-469): use the
staged copy when present; otherwise fetch, save, and re-load; on a fetch
error leave the store untouched and yield no payload. -/
def editorLoadPayload (respond : String → Except String HttpResponse)
    (baseUrl selected : String) (files : LocalFiles) : LocalFiles × Option Json :=
  match loadLocalDataset selected files with
  | some payload => (files, some payload)
  | none =>
    match fetchDataset respond baseUrl selected with
    | .ok payload =>
      let files2 := saveLocalDataset selected payload files
      (files2, loadLocalDataset selected files2)
    | .error _ => (files, none)

/-- The Bulk Upsert Selected handler (src/app.py lines 385-405),
projected onto the write calls it issues: for every code flagged for
deploy, in order, the staged payload is loaded and — when a local copy
exists — passed to `upsert_dataset` as-is (the source comment reads
"For snowflake mode we assume body is JSON and editable; upsert payload
as-is"); codes without a local copy are skipped with a warning.  The
handler performs no substitution and no encoding in either mode. -/
def bulkUpsertCalls (deployChecks : List (String × Bool)) (files : LocalFiles) :
    List (String × Json) :=
  deployChecks.foldl (fun acc p =>
    if p.2 then
      match loadLocalDataset p.1 files with
      | some payload => acc ++ [(p.1, payload)]
      | none => acc
    else acc) []

/-- The Bulk Upsert Selected handler with its network effect: the
result of `upsert_dataset` for every issued call. -/
def bulkUpsertHandler (respond : String → String → Json → Except String HttpResponse)
    (baseUrl : String) (deployChecks : List (String × Bool)) (files : LocalFiles) :
    List (String × Except (List Attempt) Json) :=
  (bulkUpsertCalls deployChecks files).map fun call =>
    (call.1, upsertDataset respond baseUrl call.1 call.2)

deriving instance DecidableEq for Except

/-! ### The claims -/

/-- C10: for every identifier and every JSON-serializable record,
loading the staged copy immediately after saving it returns the record
that was saved: `save_local_dataset` followed by `load_local_dataset`
for the same identifier is a lossless round trip. -/
theorem claim_C10 (code : String) (v : Json) (files : LocalFiles) :
    loadLocalDataset code (saveLocalDataset code v files) = some v := by
  rw [loadLocalDataset, saveLocalDataset]
  simp only [if_pos rfl, Option.bind_some]
  exact parseJson_renderP 2 v

/-- C2: for every JSON value `v`, `decode(encode v)` recovers exactly
`v` (structural equality, so keys, values and object key insertion
order are all preserved), where `encode` canonicalizes to compact JSON
text and base64-encodes the UTF-8 bytes and `decode` reverses this. -/
theorem claim_C2 (v : Json) : decodeJson (encodeJson v) = .json v := by
  have h1 : b64decodeChars (encodeJson v).data = some (utf8Encode (renderC v)) := by
    have hd : (encodeJson v).data = b64encodeBytes (utf8Encode (renderC v)) := rfl
    rw [hd]
    exact b64decode_encode _ (utf8Encode_lt _)
  have h2 : utf8DecodeLossy (utf8Encode (renderC v)) = renderC v := utf8DecodeLossy_encode _
  rw [decodeJson, h1]
  simp only [h2, parseJson_renderC]

/-- C3: the substitution engine with the ordered rule list
`[("A","B"), ("B","C")]` applied to the string value `"A"` yields
`"C"`: the rules compose left to right, each operating on the previous
rule's output. -/
theorem claim_C3 :
    applySubstitutions [("A", "B"), ("B", "C")] (.str "A") = .str "C" := by decide

/-- An outcome that `upsert_dataset` counts as a failure: a raised
exception or a non-2xx status. -/
def callFails (o : Except String HttpResponse) : Bool :=
  match o with
  | .error _ => true
  | .ok r => !(r.status == 200 || r.status == 201)

/-- The attempt record that `upsert_dataset` appends for a failed
outcome at a url. -/
def attemptOf (o : Except String HttpResponse) (url : String) : Attempt :=
  match o with
  | .error e => ⟨url, .err, e⟩
  | .ok r => ⟨url, .status r.status, take200 r.body⟩

theorem attemptCall_fails (o : Except String HttpResponse) (url : String)
    (h : callFails o = true) : attemptCall o url = .error (attemptOf o url) := by
  cases o with
  | error e => rfl
  | ok r =>
    rw [callFails] at h
    rw [attemptCall, attemptOf, if_neg (by
      intro hcon
      simp only [Bool.not_eq_true', Bool.or_eq_false_iff, beq_eq_false_iff_ne] at h
      rcases hcon with hc | hc
      · exact h.1 hc
      · exact h.2 hc)]

/-- C8: when all three upsert candidates fail (PUT to the
identifier-scoped endpoint, POST to the collection endpoint, POST to
the identifier-scoped `/upsert` endpoint, tried in that order, each by
a non-2xx status or a raised error), `upsert_dataset` fails with the
aggregate of exactly 3 attempt records, each carrying that candidate's
url, its status (or the error marker), and the body snippet (or the
error message). -/
theorem claim_C8 (respond : String → String → Json → Except String HttpResponse)
    (baseUrl code : String) (payload : Json)
    (h1 : callFails (respond "PUT" (upsertUrlPut baseUrl code) payload) = true)
    (h2 : callFails (respond "POST" (upsertUrlPost baseUrl) payload) = true)
    (h3 : callFails (respond "POST" (upsertUrlPost2 baseUrl code) payload) = true) :
    upsertDataset respond baseUrl code payload =
      .error [attemptOf (respond "PUT" (upsertUrlPut baseUrl code) payload)
                (upsertUrlPut baseUrl code),
              attemptOf (respond "POST" (upsertUrlPost baseUrl) payload)
                (upsertUrlPost baseUrl),
              attemptOf (respond "POST" (upsertUrlPost2 baseUrl code) payload)
                (upsertUrlPost2 baseUrl code)] ∧
    ∀ attempts, upsertDataset respond baseUrl code payload = .error attempts →
      attempts.length = 3 := by
  have hmain : upsertDataset respond baseUrl code payload =
      .error [attemptOf (respond "PUT" (upsertUrlPut baseUrl code) payload)
                (upsertUrlPut baseUrl code),
              attemptOf (respond "POST" (upsertUrlPost baseUrl) payload)
                (upsertUrlPost baseUrl),
              attemptOf (respond "POST" (upsertUrlPost2 baseUrl code) payload)
                (upsertUrlPost2 baseUrl code)] := by
    rw [upsertDataset, attemptCall_fails _ _ h1, attemptCall_fails _ _ h2,
      attemptCall_fails _ _ h3]
  refine ⟨hmain, ?_⟩
  intro attempts hatt
  rw [hmain] at hatt
  simp only [Except.error.injEq] at hatt
  rw [← hatt]
  rfl

/-- Server behaviour for the C8 witness: every candidate returns
HTTP 500. -/
def respondC8 : String → String → Json → Except String HttpResponse :=
  fun _ _ _ => .ok ⟨500, "internal error"⟩

/-- Witness for C8 at a concrete input: all three candidates return
HTTP 500 and the aggregated failure carries exactly their three
records. -/
theorem claim_C8_witness :
    upsertDataset respondC8 "api.example.com" "DS1" .null =
      .error [⟨upsertUrlPut "api.example.com" "DS1", .status 500, "internal error"⟩,
              ⟨upsertUrlPost "api.example.com", .status 500, "internal error"⟩,
              ⟨upsertUrlPost2 "api.example.com" "DS1", .status 500, "internal error"⟩] ∧
    ∀ attempts,
      upsertDataset respondC8 "api.example.com" "DS1" .null = .error attempts →
        attempts.length = 3 := by
  have h := claim_C8 respondC8 "api.example.com" "DS1" .null (by decide) (by decide) (by decide)
  have heq : attemptOf (respondC8 "PUT" (upsertUrlPut "api.example.com" "DS1") .null)
      (upsertUrlPut "api.example.com" "DS1") =
      ⟨upsertUrlPut "api.example.com" "DS1", .status 500, "internal error"⟩ := by decide
  have heq2 : attemptOf (respondC8 "POST" (upsertUrlPost "api.example.com") .null)
      (upsertUrlPost "api.example.com") =
      ⟨upsertUrlPost "api.example.com", .status 500, "internal error"⟩ := by decide
  have heq3 : attemptOf (respondC8 "POST" (upsertUrlPost2 "api.example.com" "DS1") .null)
      (upsertUrlPost2 "api.example.com" "DS1") =
      ⟨upsertUrlPost2 "api.example.com" "DS1", .status 500, "internal error"⟩ := by decide
  rw [← heq, ← heq2, ← heq3]
  exact h

theorem bulkFetchFold_preserves (respond : String → Except String HttpResponse)
    (baseUrl c : String) (e : String)
    (hc : fetchDataset respond baseUrl c = .error e) :
    ∀ (codes : List String) (acc : LocalFiles × Nat × List (String × String)),
      (codes.foldl (bulkFetchStep respond baseUrl) acc).1 c = acc.1 c := by
  intro codes
  induction codes with
  | nil => intro acc; rfl
  | cons code codes ih =>
    intro acc
    rw [List.foldl_cons, ih]
    rw [bulkFetchStep]
    cases hfetch : fetchDataset respond baseUrl code with
    | error e2 => rfl
    | ok data =>
      simp only []
      rw [saveLocalDataset]
      rw [if_neg (by
        intro hce
        rw [hce, hfetch] at hc
        exact Except.noConfusion hc)]

/-- C9: the Local Staging Store never gains a record for an identifier
whose fetch failed: in the bulk fetch loop the store is unchanged at
every identifier whose `fetch_dataset` call fails, and in the editor's
live-fetch fallback a failed fetch leaves the whole store untouched. -/
theorem claim_C9 (respond : String → Except String HttpResponse)
    (baseUrl c e : String) (codes : List String) (files : LocalFiles)
    (hc : fetchDataset respond baseUrl c = .error e) :
    (bulkFetchHandler respond baseUrl codes files).1 c = files c ∧
    (editorLoadPayload respond baseUrl c files).1 = files := by
  constructor
  · exact bulkFetchFold_preserves respond baseUrl c e hc codes (files, 0, [])
  · rw [editorLoadPayload]
    cases loadLocalDataset c files with
    | some payload => rfl
    | none =>
      simp only []
      rw [hc]

/-- Server behaviour for the C9 witness: every request raises. -/
def respondC9 : String → Except String HttpResponse := fun _ => .error "connection refused"

/-- Witness for C9 at a concrete input: with a server that refuses every
connection, fetching code `"X"` fails and neither the bulk handler nor
the editor fallback creates a staged entry for it. -/
theorem claim_C9_witness :
    (bulkFetchHandler respondC9 "api.example.com" ["X"] (fun _ => none)).1 "X" =
      (fun _ => none : LocalFiles) "X" ∧
    (editorLoadPayload respondC9 "api.example.com" "X" (fun _ => none)).1 =
      (fun _ => none : LocalFiles) :=
  claim_C9 respondC9 "api.example.com" "X"
    ("Failed to fetch dataset " ++ String.mk [Char.ofNat 39] ++ "X" ++
      String.mk [Char.ofNat 39] ++ " from API.")
    ["X"] (fun _ => none) (by decide)

theorem fetchLoop_ok (respond : String → Except String HttpResponse)
    (baseUrl code : String) :
    ∀ (ps : List String) (j : Json), fetchDatasetLoop respond baseUrl code ps = .ok j →
      ∃ p ∈ ps, ∃ resp, respond (candidateUrl baseUrl p) = .ok resp ∧
        resp.status = 200 ∧ parseJson resp.body = some j := by
  intro ps
  induction ps with
  | nil =>
    intro j hj
    rw [fetchDatasetLoop] at hj
    exact Except.noConfusion hj
  | cons p ps ih =>
    intro j hj
    rw [fetchDatasetLoop] at hj
    cases hr : respond (candidateUrl baseUrl p) with
    | error e =>
      simp only [hr] at hj
      obtain ⟨p2, hp2, resp, h⟩ := ih j hj
      exact ⟨p2, List.mem_cons_of_mem p hp2, resp, h⟩
    | ok resp =>
      simp only [hr] at hj
      by_cases hs : resp.status = 200
      · rw [if_pos hs] at hj
        cases hp : parseJson resp.body with
        | some j2 =>
          rw [hp] at hj
          simp only [Except.ok.injEq] at hj
          exact ⟨p, List.mem_cons_self p ps, resp, hr, hs, by rw [hp, hj]⟩
        | none =>
          rw [hp] at hj
          exact Except.noConfusion hj
      · rw [if_neg hs] at hj
        obtain ⟨p2, hp2, resp2, h⟩ := ih j hj
        exact ⟨p2, List.mem_cons_of_mem p hp2, resp2, h⟩

/-- C4 (amended): when `fetch_dataset` succeeds it returns exactly the
parsed JSON body of the first candidate that answered HTTP 200 with
parseable JSON — it performs no extraction of `code`, `bodyMeta`,
`body`, `inputs` and does not unwrap a `value` envelope. -/
theorem claim_C4_amended (respond : String → Except String HttpResponse)
    (baseUrl code : String) (j : Json)
    (h : fetchDataset respond baseUrl code = .ok j) :
    ∃ p ∈ fetchCandidatePaths code, ∃ resp,
      respond (candidateUrl baseUrl p) = .ok resp ∧ resp.status = 200 ∧
        parseJson resp.body = some j :=
  fetchLoop_ok respond baseUrl code (fetchCandidatePaths code) j h

/-- Server behaviour for the C4 scenario: the first fetch candidate
answers 200 with a body that nests the record fields inside a `value`
envelope. -/
def respondC4 : String → Except String HttpResponse := fun url =>
  if url = candidateUrl "api.example.com" "/datasets/DS7" then
    .ok ⟨200, "\x7b\"value\":\x7b\"code\":\"DS7\",\"body\":\"B\"\x7d\x7d"⟩
  else .error "connection refused"

/-- Counterexample to C4 as stated: on a response whose body is a
`value` envelope, `fetch_dataset` returns the whole parsed envelope —
the result still carries the `value` wrapper and exposes no top-level
`code` field, so no field extraction happened. -/
theorem claim_C4_cex :
    fetchDataset respondC4 "api.example.com" "DS7" =
      .ok (.obj [("value", .obj [("code", .str "DS7"), ("body", .str "B")])]) ∧
    pyDictGet [("value", Json.obj [("code", .str "DS7"), ("body", .str "B")])] "code" =
      none := by decide

/-- Witness for the amended C4 at a concrete input: the envelope
response is returned verbatim, and it is exactly the parsed body of the
first candidate. -/
theorem claim_C4_witness :
    ∃ p ∈ fetchCandidatePaths "DS7", ∃ resp,
      respondC4 (candidateUrl "api.example.com" p) = .ok resp ∧ resp.status = 200 ∧
        parseJson resp.body =
          some (.obj [("value", .obj [("code", .str "DS7"), ("body", .str "B")])]) :=
  claim_C4_amended respondC4 "api.example.com" "DS7"
    (.obj [("value", .obj [("code", .str "DS7"), ("body", .str "B")])]) (by decide)

/-- A candidate both probing loops skip: its request raised a network
error, or it answered with a non-200 status. -/
def skipsCandidate (respond : String → Except String HttpResponse)
    (baseUrl p : String) : Bool :=
  match respond (candidateUrl baseUrl p) with
  | .error _ => true
  | .ok resp => if resp.status = 200 then false else true

/-- The only error `normalizeListing` itself produces is the
AttributeError, so it never produces the exhaustion error. -/
theorem normalizeListing_err (d : Json) (m : String)
    (h : normalizeListing d = .error m) :
    m = "AttributeError: object has no attribute get" := by
  rw [normalizeListing.eq_def] at h
  split at h
  · split at h
    · exact Except.noConfusion h
    · split at h
      · exact Except.noConfusion h
      · split at h
        · exact Except.noConfusion h
        · exact Except.noConfusion h
  · exact Except.noConfusion h
  · injection h with h2
    exact h2.symm

/-- The exhaustion message of `fetch_dataset` (whatever the code) is
never the invalid-JSON message: the first characters differ. -/
theorem fetchMsg_ne (code : String) :
    "Failed to fetch dataset " ++ String.mk [Char.ofNat 39] ++ code ++
      String.mk [Char.ofNat 39] ++ " from API." ≠
      "Dataset endpoint returned invalid JSON." := by
  intro h
  have hd := congrArg String.data h
  simp only [String.data_append] at hd
  simp only [List.cons_append] at hd
  injection hd with h1 _
  exact absurd h1 (by decide)

/-- The listing loop returns its exhaustion error exactly when every
candidate is skipped (network error or non-200 status). -/
theorem codesLoop_exhaust (respond : String → Except String HttpResponse)
    (baseUrl : String) : ∀ (ps : List String),
    fetchDatasetCodesLoop respond baseUrl ps =
        .error "Failed to fetch dataset codes from known endpoints." ↔
      ∀ p ∈ ps, skipsCandidate respond baseUrl p = true := by
  intro ps
  induction ps with
  | nil =>
    constructor
    · intro _ p hp
      exact absurd hp (List.not_mem_nil p)
    · intro _
      rw [fetchDatasetCodesLoop]
  | cons p ps ih =>
    constructor
    · intro h q hq
      rw [fetchDatasetCodesLoop] at h
      cases hr : respond (candidateUrl baseUrl p) with
      | error e =>
        simp only [hr] at h
        rcases List.mem_cons.mp hq with rfl | hq2
        · rw [skipsCandidate, hr]
        · exact ih.mp h q hq2
      | ok resp =>
        simp only [hr] at h
        by_cases hs : resp.status = 200
        · rw [if_pos hs] at h
          cases hp : parseJson resp.body with
          | none =>
            rw [hp] at h
            injection h with h2
            exact absurd h2 (by decide)
          | some d =>
            rw [hp] at h
            exact absurd (normalizeListing_err d _ h) (by decide)
        · rw [if_neg hs] at h
          rcases List.mem_cons.mp hq with rfl | hq2
          · simp [skipsCandidate, hr, hs]
          · exact ih.mp h q hq2
    · intro h
      have hp := h p (List.mem_cons_self p ps)
      have hps : ∀ q ∈ ps, skipsCandidate respond baseUrl q = true :=
        fun q hq => h q (List.mem_cons_of_mem p hq)
      rw [fetchDatasetCodesLoop]
      cases hr : respond (candidateUrl baseUrl p) with
      | error e =>
        simp only [hr]
        exact ih.mpr hps
      | ok resp =>
        simp only [skipsCandidate, hr] at hp
        by_cases hs : resp.status = 200
        · rw [if_pos hs] at hp
          exact Bool.noConfusion hp
        · simp only [hr, if_neg hs]
          exact ih.mpr hps

/-- The fetch loop returns its exhaustion error exactly when every
candidate is skipped (network error or non-200 status). -/
theorem fetchLoop_exhaust (respond : String → Except String HttpResponse)
    (baseUrl code : String) : ∀ (ps : List String),
    fetchDatasetLoop respond baseUrl code ps =
        .error ("Failed to fetch dataset " ++ String.mk [Char.ofNat 39] ++ code ++
          String.mk [Char.ofNat 39] ++ " from API.") ↔
      ∀ p ∈ ps, skipsCandidate respond baseUrl p = true := by
  intro ps
  induction ps with
  | nil =>
    constructor
    · intro _ p hp
      exact absurd hp (List.not_mem_nil p)
    · intro _
      rw [fetchDatasetLoop]
  | cons p ps ih =>
    constructor
    · intro h q hq
      rw [fetchDatasetLoop] at h
      cases hr : respond (candidateUrl baseUrl p) with
      | error e =>
        simp only [hr] at h
        rcases List.mem_cons.mp hq with rfl | hq2
        · rw [skipsCandidate, hr]
        · exact ih.mp h q hq2
      | ok resp =>
        simp only [hr] at h
        by_cases hs : resp.status = 200
        · rw [if_pos hs] at h
          cases hp : parseJson resp.body with
          | some j =>
            rw [hp] at h
            exact Except.noConfusion h
          | none =>
            rw [hp] at h
            injection h with h2
            exact absurd h2.symm (fetchMsg_ne code)
        · rw [if_neg hs] at h
          rcases List.mem_cons.mp hq with rfl | hq2
          · simp [skipsCandidate, hr, hs]
          · exact ih.mp h q hq2
    · intro h
      have hp := h p (List.mem_cons_self p ps)
      have hps : ∀ q ∈ ps, skipsCandidate respond baseUrl q = true :=
        fun q hq => h q (List.mem_cons_of_mem p hq)
      rw [fetchDatasetLoop]
      cases hr : respond (candidateUrl baseUrl p) with
      | error e =>
        simp only [hr]
        exact ih.mpr hps
      | ok resp =>
        simp only [skipsCandidate, hr] at hp
        by_cases hs : resp.status = 200
        · rw [if_pos hs] at hp
          exact Bool.noConfusion hp
        · simp only [hr, if_neg hs]
          exact ih.mpr hps

/-- C6 (amended): in both probing loops (listing and fetch) a network
error from a single candidate is caught and probing moves to the next
candidate, and a non-2xx status from a single candidate likewise moves
probing to the next candidate; the taxonomy (exhaustion) error is
produced exactly when every candidate was skipped this way, i.e. only
when all candidates are exhausted; but an HTTP 200 response whose body
fails to parse does *not* move on — it raises the invalid-JSON error
immediately, before the remaining candidates are tried. -/
theorem claim_C6_amended (respond : String → Except String HttpResponse)
    (baseUrl code : String) :
    (∀ (p : String) (ps : List String) (e : String),
      respond (candidateUrl baseUrl p) = .error e →
        fetchDatasetCodesLoop respond baseUrl (p :: ps) =
          fetchDatasetCodesLoop respond baseUrl ps) ∧
    (∀ (p : String) (ps : List String) (resp : HttpResponse),
      respond (candidateUrl baseUrl p) = .ok resp → resp.status ≠ 200 →
        fetchDatasetCodesLoop respond baseUrl (p :: ps) =
          fetchDatasetCodesLoop respond baseUrl ps) ∧
    (∀ (p : String) (ps : List String) (resp : HttpResponse),
      respond (candidateUrl baseUrl p) = .ok resp → resp.status = 200 →
        parseJson resp.body = none →
          fetchDatasetCodesLoop respond baseUrl (p :: ps) =
            .error "Dataset listing returned invalid JSON.") ∧
    (∀ (ps : List String),
      fetchDatasetCodesLoop respond baseUrl ps =
          .error "Failed to fetch dataset codes from known endpoints." ↔
        ∀ p ∈ ps, skipsCandidate respond baseUrl p = true) ∧
    (∀ (p : String) (ps : List String) (e : String),
      respond (candidateUrl baseUrl p) = .error e →
        fetchDatasetLoop respond baseUrl code (p :: ps) =
          fetchDatasetLoop respond baseUrl code ps) ∧
    (∀ (p : String) (ps : List String) (resp : HttpResponse),
      respond (candidateUrl baseUrl p) = .ok resp → resp.status ≠ 200 →
        fetchDatasetLoop respond baseUrl code (p :: ps) =
          fetchDatasetLoop respond baseUrl code ps) ∧
    (∀ (p : String) (ps : List String) (resp : HttpResponse),
      respond (candidateUrl baseUrl p) = .ok resp → resp.status = 200 →
        parseJson resp.body = none →
          fetchDatasetLoop respond baseUrl code (p :: ps) =
            .error "Dataset endpoint returned invalid JSON.") ∧
    (∀ (ps : List String),
      fetchDatasetLoop respond baseUrl code ps =
          .error ("Failed to fetch dataset " ++ String.mk [Char.ofNat 39] ++ code ++
            String.mk [Char.ofNat 39] ++ " from API.") ↔
        ∀ p ∈ ps, skipsCandidate respond baseUrl p = true) := by
  refine ⟨?_, ?_, ?_, codesLoop_exhaust respond baseUrl, ?_, ?_, ?_,
    fetchLoop_exhaust respond baseUrl code⟩
  · intro p ps e hr
    rw [fetchDatasetCodesLoop]
    simp only [hr]
  · intro p ps resp hr hs
    rw [fetchDatasetCodesLoop]
    simp only [hr, if_neg hs]
  · intro p ps resp hr hs hp
    rw [fetchDatasetCodesLoop]
    simp only [hr, if_pos hs, hp]
  · intro p ps e hr
    rw [fetchDatasetLoop]
    simp only [hr]
  · intro p ps resp hr hs
    rw [fetchDatasetLoop]
    simp only [hr, if_neg hs]
  · intro p ps resp hr hs hp
    rw [fetchDatasetLoop]
    simp only [hr, if_pos hs, hp]

/-- Server behaviour for the C6 counterexample: the first listing
candidate answers 200 with an unparseable body, the second would answer
200 with a valid listing. -/
def respondC6 : String → Except String HttpResponse := fun url =>
  if url = candidateUrl "api.example.com" "/datasets" then .ok ⟨200, "not json"⟩
  else if url = candidateUrl "api.example.com" "/data/datasets" then .ok ⟨200, "[\"A\"]"⟩
  else .error "connection refused"

/-- Counterexample to C6 as stated: with the first candidate answering
200-unparseable and the second candidate perfectly good, the listing
aborts with the invalid-JSON error instead of trying the remaining
candidate (which, probed alone, succeeds). -/
theorem claim_C6_cex :
    fetchDatasetCodes respondC6 "api.example.com" =
      .error "Dataset listing returned invalid JSON." ∧
    fetchDatasetCodesLoop respondC6 "api.example.com" ["/data/datasets"] =
      .ok [Json.str "A"] := by decide

/-- Server behaviour for the C6 witness: the first candidate raises a
network error, every other one answers 200 with an unparseable body. -/
def respondC6w : String → Except String HttpResponse := fun url =>
  if url = candidateUrl "api.example.com" "/datasets" then .error "connection refused"
  else .ok ⟨200, "not json"⟩

/-- Second server behaviour for the C6 witness: every candidate answers
with a non-2xx status. -/
def respondC6x : String → Except String HttpResponse := fun _ =>
  .ok ⟨503, "Service Unavailable"⟩

/-- Witness for the amended C6 at concrete inputs: a network error on
the head candidate skips to the tail, a non-2xx head candidate skips
to the tail, an all-non-2xx probe run ends in the exhaustion error,
and a 200-unparseable head candidate aborts immediately — in both
loops. -/
theorem claim_C6_witness :
    fetchDatasetCodesLoop respondC6w "api.example.com" ["/datasets", "/data/datasets"] =
      fetchDatasetCodesLoop respondC6w "api.example.com" ["/data/datasets"] ∧
    fetchDatasetCodesLoop respondC6x "api.example.com" ["/datasets", "/data/datasets"] =
      fetchDatasetCodesLoop respondC6x "api.example.com" ["/data/datasets"] ∧
    fetchDatasetCodesLoop respondC6w "api.example.com" ["/data/datasets"] =
      .error "Dataset listing returned invalid JSON." ∧
    fetchDatasetCodesLoop respondC6x "api.example.com" listingCandidatePaths =
      .error "Failed to fetch dataset codes from known endpoints." ∧
    fetchDatasetLoop respondC6w "api.example.com" "X" ["/datasets", "/datasets/X"] =
      fetchDatasetLoop respondC6w "api.example.com" "X" ["/datasets/X"] ∧
    fetchDatasetLoop respondC6x "api.example.com" "X" ["/datasets", "/datasets/X"] =
      fetchDatasetLoop respondC6x "api.example.com" "X" ["/datasets/X"] ∧
    fetchDatasetLoop respondC6w "api.example.com" "X" ["/datasets/X"] =
      .error "Dataset endpoint returned invalid JSON." ∧
    fetchDatasetLoop respondC6x "api.example.com" "X" (fetchCandidatePaths "X") =
      .error ("Failed to fetch dataset " ++ String.mk [Char.ofNat 39] ++ "X" ++
        String.mk [Char.ofNat 39] ++ " from API.") := by
  refine ⟨?_, ?_, ?_, ?_, ?_, ?_, ?_, ?_⟩
  · exact (claim_C6_amended respondC6w "api.example.com" "X").1 "/datasets"
      ["/data/datasets"] "connection refused" (by decide)
  · exact (claim_C6_amended respondC6x "api.example.com" "X").2.1 "/datasets"
      ["/data/datasets"] ⟨503, "Service Unavailable"⟩ (by decide) (by decide)
  · exact (claim_C6_amended respondC6w "api.example.com" "X").2.2.1 "/data/datasets"
      [] ⟨200, "not json"⟩ (by decide) rfl (by decide)
  · exact ((claim_C6_amended respondC6x "api.example.com" "X").2.2.2.1
      listingCandidatePaths).mpr (by decide)
  · exact (claim_C6_amended respondC6w "api.example.com" "X").2.2.2.2.1 "/datasets"
      ["/datasets/X"] "connection refused" (by decide)
  · exact (claim_C6_amended respondC6x "api.example.com" "X").2.2.2.2.2.1 "/datasets"
      ["/datasets/X"] ⟨503, "Service Unavailable"⟩ (by decide) (by decide)
  · exact (claim_C6_amended respondC6w "api.example.com" "X").2.2.2.2.2.2.1 "/datasets/X"
      [] ⟨200, "not json"⟩ (by decide) rfl (by decide)
  · exact ((claim_C6_amended respondC6x "api.example.com" "X").2.2.2.2.2.2.2
      (fetchCandidatePaths "X")).mpr (by decide)

theorem authLoop_spec (respond : String → Json → Except String HttpResponse)
    (baseUrl : String) (payload : Json) :
    ∀ (ps : List String) (le : Option String),
      (∀ p ∈ ps, authStepRaises (authStep (respond (candidateUrl baseUrl p) payload)) = false) →
      (((∃ t, authLoop respond baseUrl payload ps le = .ok t) ↔
         (∃ p ∈ ps, ∃ t, authStep (respond (candidateUrl baseUrl p) payload) = .token t)) ∧
       ((∀ p ∈ ps, ∀ t, authStep (respond (candidateUrl baseUrl p) payload) ≠ .token t) →
         authLoop respond baseUrl payload ps le =
           .error (.authFailed (lastErrFold respond baseUrl payload ps le)))) := by
  intro ps
  induction ps with
  | nil =>
    intro le h
    constructor
    · constructor
      · rintro ⟨t, ht⟩
        rw [authLoop] at ht
        exact Except.noConfusion ht
      · rintro ⟨p, hp, _⟩
        exact absurd hp (List.not_mem_nil p)
    · intro _
      rfl
  | cons p ps ih =>
    intro le h
    have hp := h p (List.mem_cons_self p ps)
    cases hstep : authStep (respond (candidateUrl baseUrl p) payload) with
    | raised e =>
      rw [hstep] at hp
      simp [authStepRaises] at hp
    | token t =>
      constructor
      · constructor
        · intro _
          exact ⟨p, List.mem_cons_self p ps, t, hstep⟩
        · intro _
          refine ⟨t, ?_⟩
          rw [authLoop]
          simp only [hstep]
      · intro hno
        exact absurd hstep (hno p (List.mem_cons_self p ps) t)
    | next u =>
      have hrest := ih (u.or le) (fun q hq => h q (List.mem_cons_of_mem p hq))
      have hstepEq : authLoop respond baseUrl payload (p :: ps) le =
          authLoop respond baseUrl payload ps (u.or le) := by
        rw [authLoop]
        cases u <;> simp only [hstep, Option.or]
      have hfoldEq : lastErrFold respond baseUrl payload (p :: ps) le =
          lastErrFold respond baseUrl payload ps (u.or le) := by
        simp only [lastErrFold, List.foldl_cons, hstep]
        cases u <;> rfl
      constructor
      · rw [hstepEq]
        constructor
        · intro hok
          obtain ⟨q, hq, t, ht⟩ := hrest.1.mp hok
          exact ⟨q, List.mem_cons_of_mem p hq, t, ht⟩
        · rintro ⟨q, hq, t, ht⟩
          rcases List.mem_cons.mp hq with hqp | hqs
          · rw [hqp] at ht
            rw [ht] at hstep
            exact AuthStep.noConfusion hstep
          · exact hrest.1.mpr ⟨q, hqs, t, ht⟩
      · intro hno
        rw [hstepEq, hfoldEq]
        exact hrest.2 (fun q hq t => hno q (List.mem_cons_of_mem p hq) t)

/-- C7 (amended): provided no candidate's 2xx body drives the
token-extraction block into a `TypeError` (which `200`-bodies parsing to
non-dict JSON can do — see the counterexample), `try_auth_endpoints`
never fails because of a single failed candidate: it succeeds exactly
when some candidate yields a token, it raises the aggregate
authentication error only after every candidate has been tried without
a token, and that error carries the last recorded underlying error or
non-2xx status. -/
theorem claim_C7_amended (respond : String → Json → Except String HttpResponse)
    (baseUrl username password clientName : String)
    (h : ∀ p ∈ authCandidatePaths, authStepRaises (authStep
      (respond (candidateUrl baseUrl p) (authPayload username password clientName))) = false) :
    ((∃ t, tryAuthEndpoints respond baseUrl username password clientName = .ok t) ↔
      (∃ p ∈ authCandidatePaths, ∃ t, authStep (respond (candidateUrl baseUrl p)
        (authPayload username password clientName)) = .token t)) ∧
    ((∀ p ∈ authCandidatePaths, ∀ t, authStep (respond (candidateUrl baseUrl p)
        (authPayload username password clientName)) ≠ .token t) →
      tryAuthEndpoints respond baseUrl username password clientName =
        .error (.authFailed (lastErrFold respond baseUrl
          (authPayload username password clientName) authCandidatePaths none))) ∧
    (∀ e, tryAuthEndpoints respond baseUrl username password clientName ≠
      .error (.typeError e)) := by
  have hspec := authLoop_spec respond baseUrl (authPayload username password clientName)
    authCandidatePaths none h
  refine ⟨hspec.1, hspec.2, ?_⟩
  intro e hcon
  rw [tryAuthEndpoints] at hcon
  by_cases hex : ∃ p ∈ authCandidatePaths, ∃ t, authStep (respond (candidateUrl baseUrl p)
      (authPayload username password clientName)) = .token t
  · obtain ⟨t, ht⟩ := hspec.1.mpr hex
    rw [ht] at hcon
    exact Except.noConfusion hcon
  · push_neg at hex
    have := hspec.2 hex
    rw [this] at hcon
    simp only [Except.error.injEq] at hcon
    exact AuthError.noConfusion hcon

/-- Server behaviour for the C7 counterexample: the first auth candidate
answers 200 with the JSON body `42`; the second would answer 200 with a
perfectly good token object. -/
def respondC7 : String → Json → Except String HttpResponse := fun url _ =>
  if url = candidateUrl "api.example.com" "/auth/login" then .ok ⟨200, "42"⟩
  else .ok ⟨200, "\x7b\"token\": \"second-candidate-token\"\x7d"⟩

/-- Counterexample to C7 as stated: a single candidate whose 200 body
parses to the JSON number `42` makes `"token" in data` raise a
TypeError that propagates out of `try_auth_endpoints` immediately —
it is not the aggregate authentication error, and the remaining
candidate (which would have yielded a token) is never tried. -/
theorem claim_C7_cex :
    tryAuthEndpoints respondC7 "api.example.com" "u" "p" "c" =
      .error (.typeError "TypeError: argument is not iterable") ∧
    authStep (respondC7 (candidateUrl "api.example.com" "/authenticate")
      (authPayload "u" "p" "c")) = .token "second-candidate-token" := by decide

/-- Server behaviour for the C7 witness: every candidate answers with a
non-2xx status. -/
def respondC7w : String → Json → Except String HttpResponse :=
  fun _ _ => .ok ⟨503, "unavailable"⟩

/-- Witness for the amended C7 at a concrete input where every
candidate fails with HTTP 503. -/
theorem claim_C7_witness :
    ((∃ t, tryAuthEndpoints respondC7w "api.example.com" "u" "p" "c" = .ok t) ↔
      (∃ p ∈ authCandidatePaths, ∃ t, authStep (respondC7w (candidateUrl "api.example.com" p)
        (authPayload "u" "p" "c")) = .token t)) ∧
    ((∀ p ∈ authCandidatePaths, ∀ t, authStep (respondC7w (candidateUrl "api.example.com" p)
        (authPayload "u" "p" "c")) ≠ .token t) →
      tryAuthEndpoints respondC7w "api.example.com" "u" "p" "c" =
        .error (.authFailed (lastErrFold respondC7w "api.example.com"
          (authPayload "u" "p" "c") authCandidatePaths none))) ∧
    (∀ e, tryAuthEndpoints respondC7w "api.example.com" "u" "p" "c" ≠
      .error (.typeError e)) :=
  claim_C7_amended respondC7w "api.example.com" "u" "p" "c" (by decide)

/-- The staged body text of the C1 scenario: a SQL fragment naming the
staging schema. -/
def c1Body : String := "SELECT * FROM KURTOSYS_RPT_STG.NRC.HOLDINGS"

/-- The staged record of the C1 scenario. -/
def c1Payload : Json :=
  .obj [("code", .str "DS1"), ("bodyMeta", .str "meta"), ("body", .str c1Body)]

/-- C1 behaviour at the failing input: with dataset `DS1` selected for
deploy and staged, the Bulk Upsert handler issues exactly one write
call whose payload is the staged record verbatim — its `body` is still
the raw SQL containing the staging string `KURTOSYS_RPT_STG.NRC.`, it
does not contain the replacement string `KURTOSYS_RPT_PRD.NRC.`, and it
is not base64 text.  The configured substitution rules and the
re-encoding step required by the claim are never applied (the handler's
own comment reads "upsert payload as-is", and the find/replace sidebar
values are never read by any code path). -/
theorem claim_C1_behaviour :
    bulkUpsertCalls [("DS1", true)] (saveLocalDataset "DS1" c1Payload fun _ => none) =
      [("DS1", c1Payload)] ∧
    containsSubstring "KURTOSYS_RPT_STG.NRC.".data c1Body.data = true ∧
    containsSubstring "KURTOSYS_RPT_PRD.NRC.".data c1Body.data = false ∧
    b64decodeChars c1Body.data = none := by decide

/-- Server behaviour for the C5 scenario: the listing endpoint answers
200 with a nested value/values envelope holding codes X1 and X2. -/
def respondC5 : String → Except String HttpResponse := fun url =>
  if url = candidateUrl "api.example.com" "/datasets" then
    .ok ⟨200, "\x7b\"value\":\x7b\"values\":[\x7b\"code\":\"X1\"\x7d,\x7b\"code\":\"X2\"\x7d]\x7d\x7d"⟩
  else .error "connection refused"

/-- Counterexample to C5 as stated: on the nested value/values envelope
response holding codes X1 and X2, the derived identifier list is not
the two-element list of those codes. -/
theorem claim_C5_cex :
    pullDatasetCodes respondC5 "api.example.com" ≠ .ok ["X1", "X2"] := by decide

/-- C5 (amended): the `value`/`values` envelope is not recognized by
the listing normalization — `fetch_dataset_codes` falls back to
wrapping the whole parsed object as a one-element list, and the handler
finds none of the code keys in it, so the single derived identifier is
the `json.dumps` serialization of the entire envelope. -/
theorem claim_C5_amended :
    pullDatasetCodes respondC5 "api.example.com" =
      .ok ["\x7b\"value\": \x7b\"values\": [\x7b\"code\": \"X1\"\x7d, \x7b\"code\": \"X2\"\x7d]\x7d\x7d"] ∧
    "\x7b\"value\": \x7b\"values\": [\x7b\"code\": \"X1\"\x7d, \x7b\"code\": \"X2\"\x7d]\x7d\x7d" =
      String.mk (renderD (.obj [("value", .obj [("values",
        .arr [.obj [("code", .str "X1")], .obj [("code", .str "X2")]])])])) := by decide
